import Mathlib

/-!
Verification of the trip/teams reconciliation engine of the
airline-msteams-poc repository, against a shallow embedding of its
TypeScript source.  The embedding follows the latest revision of
`src/TeamsUpdater.ts` (the variant that matches on user principal names),
the compound team-creation operation of `src/TeamsApi.ts`, and the Mongo
query filters of `src/trips/MongoDbTripsApi.ts` and
`src/storage/MongoDbAppDataStore.ts`.  Remote Graph calls are modelled as
oracles (`Except` valued inputs); times are integers (milliseconds since
the epoch, as in JavaScript `Date.getTime()`).
-/

deriving instance DecidableEq for Except

namespace AirlineTeams

/-- Instants in milliseconds since the epoch, as JavaScript `Date` stores them. -/
abbrev Instant := Int

/-- Graph error status code carried by a failed remote call. -/
abbrev ErrCode := Nat

/-- Milliseconds in one day: `moment(t).add(n, "d")` / `subtract(n, "d")` move by
multiples of this. -/
def msPerDay : Int := 86400000

/-- Constant `daysInAdvanceToCreateTrips` of TeamsUpdater.ts (line 32). -/
def daysInAdvanceToCreateTrips : Int := 7

/-- Constant `daysInPastToMonitorTrips` of TeamsUpdater.ts (line 33). -/
def daysInPastToMonitorTrips : Int := 7

/-- Constant `daysInPastToArchiveTrips` of TeamsUpdater.ts (line 34). -/
def daysInPastToArchiveTrips : Int := 14

/-- Constant `archivedTag` of TeamsUpdater.ts (line 35). -/
def archivedTag : String := "[ARCHIVED]"

/-- Flight segment of a trip (trips/TripsApi.ts). -/
structure Flight where
  flightNumber : String
  origin : String
  destination : String
deriving DecidableEq, Repr

/-- Crew member of a trip, keyed by `userPrincipalName` (trips/TripsApi.ts). -/
structure CrewMember where
  userPrincipalName : String
  displayName : Option String := none
deriving DecidableEq, Repr

/-- Trip record of the trips database (trips/TripsApi.ts). -/
structure Trip where
  tripId : String
  departureTime : Instant
  flights : List Flight
  crewMembers : List CrewMember
deriving DecidableEq, Repr

/-- Directory user as the updater consumes it: AAD object id plus principal
name. -/
structure User where
  id : String
  userPrincipalName : String
deriving DecidableEq, Repr

/-- TeamData record of the tracking store (storage/AppDataStore.ts):
`archivalTime` is absent (`none`) while the team is active. -/
structure TeamData where
  groupId : String
  tripId : String
  creationTime : Instant
  archivalTime : Option Instant := none
  tripSnapshot : Trip
deriving DecidableEq, Repr

/-! ## UPN normalization and the Phase B membership diff
`TeamsUpdater.normalizeUpnCasing` (lines 398-406) lowercases each entry's
`userPrincipalName` when it is set (truthy); the empty string stands for an
absent value and is left as is. -/

/-- JavaScript `String.prototype.toLowerCase`, embedded as a character-wise
lowercase map. -/
def toLowerCase (s : String) : String := ⟨s.data.map Char.toLower⟩

/-- JavaScript `String.prototype.startsWith`, embedded as a character-list
prefix test. -/
def jsStartsWith (s p : String) : Bool := p.data.isPrefixOf s.data

/-- One crew member as `normalizeUpnCasing` rewrites it. -/
def normalizeCrewUpn (c : CrewMember) : CrewMember :=
  if c.userPrincipalName ≠ "" then
    { c with userPrincipalName := toLowerCase c.userPrincipalName }
  else c

/-- `normalizeUpnCasing` over a crew list. -/
def normalizeCrewUpnCasing (cs : List CrewMember) : List CrewMember :=
  cs.map normalizeCrewUpn

/-- One directory user as `normalizeUpnCasing` rewrites it. -/
def normalizeUserUpn (u : User) : User :=
  if u.userPrincipalName ≠ "" then
    { u with userPrincipalName := toLowerCase u.userPrincipalName }
  else u

/-- `normalizeUpnCasing` over a group-member list. -/
def normalizeUserUpnCasing (us : List User) : List User :=
  us.map normalizeUserUpn

/-- Filter `crewMembersToAdd` of `updateExistingTeamsAsync` (lines 259-260):
crew members with no group member of equal (already normalized) principal
name. -/
def crewMembersToAdd (crewMembers : List CrewMember) (groupMembers : List User) :
    List CrewMember :=
  crewMembers.filter fun crewMember =>
    ! groupMembers.any fun groupMember =>
        groupMember.userPrincipalName == crewMember.userPrincipalName

/-- Filter `groupMembersToRemove` of `updateExistingTeamsAsync` (lines
271-273): group members matching no crew member, except the active team
owner. -/
def groupMembersToRemove (activeTeamOwnerUpn : String)
    (crewMembers : List CrewMember) (groupMembers : List User) : List User :=
  groupMembers.filter fun groupMember =>
    (! crewMembers.any fun crewMember =>
        groupMember.userPrincipalName == crewMember.userPrincipalName) &&
    (groupMember.userPrincipalName != activeTeamOwnerUpn)

/-- Membership diff of the update phase: both rosters are passed through
`normalizeUpnCasing` (lines 251 and 256) before the two filters run.  The
`activeTeamOwnerUpn` is the configured value, lowercased by the constructor
(line 78). -/
def membershipDiff (activeTeamOwnerUpn : String) (crew : List CrewMember)
    (members : List User) : List CrewMember × List User :=
  let crewN := normalizeCrewUpnCasing crew
  let memN := normalizeUserUpnCasing members
  (crewMembersToAdd crewN memN, groupMembersToRemove activeTeamOwnerUpn crewN memN)

lemma toLowerCase_empty : toLowerCase "" = "" := rfl

lemma normalizeCrewUpn_upn (c : CrewMember) :
    (normalizeCrewUpn c).userPrincipalName = toLowerCase c.userPrincipalName := by
  unfold normalizeCrewUpn
  split
  · rfl
  · rename_i h
    rw [not_not.mp h, toLowerCase_empty]

lemma normalizeUserUpn_upn (u : User) :
    (normalizeUserUpn u).userPrincipalName = toLowerCase u.userPrincipalName := by
  unfold normalizeUserUpn
  split
  · rfl
  · rename_i h
    rw [not_not.mp h, toLowerCase_empty]

lemma diff_toAdd_char (owner : String) (crew : List CrewMember) (members : List User) :
    ∀ c, c ∈ (membershipDiff owner crew members).1 ↔
      ∃ c0, c0 ∈ crew ∧ c = normalizeCrewUpn c0 ∧
        ∀ g, g ∈ members →
          toLowerCase g.userPrincipalName ≠ toLowerCase c0.userPrincipalName := by
  intro c
  simp only [membershipDiff, crewMembersToAdd, normalizeCrewUpnCasing,
    normalizeUserUpnCasing, List.mem_filter, List.mem_map, List.any_eq_true,
    Bool.not_eq_true', Bool.and_eq_true, beq_iff_eq, List.any_eq_false]
  constructor
  · rintro ⟨⟨c0, hc0, rfl⟩, hno⟩
    refine ⟨c0, hc0, rfl, ?_⟩
    intro g hg heq
    exact hno (normalizeUserUpn g) ⟨g, hg, rfl⟩ (by
      rw [normalizeUserUpn_upn, normalizeCrewUpn_upn, heq])
  · rintro ⟨c0, hc0, rfl, hno⟩
    refine ⟨⟨c0, hc0, rfl⟩, ?_⟩
    rintro g ⟨g0, hg0, rfl⟩ heq
    rw [normalizeUserUpn_upn, normalizeCrewUpn_upn] at heq
    exact hno g0 hg0 heq

lemma diff_toRemove_char (owner : String) (crew : List CrewMember)
    (members : List User) :
    ∀ u, u ∈ (membershipDiff owner crew members).2 ↔
      ∃ u0, u0 ∈ members ∧ u = normalizeUserUpn u0 ∧
        (∀ c0, c0 ∈ crew →
          toLowerCase c0.userPrincipalName ≠ toLowerCase u0.userPrincipalName) ∧
        toLowerCase u0.userPrincipalName ≠ owner := by
  intro u
  simp only [membershipDiff, groupMembersToRemove, normalizeCrewUpnCasing,
    normalizeUserUpnCasing, List.mem_filter, List.mem_map, List.any_eq_true,
    Bool.not_eq_true', Bool.and_eq_true, beq_iff_eq, bne_iff_ne, ne_eq,
    List.any_eq_false]
  constructor
  · rintro ⟨⟨u0, hu0, rfl⟩, hno, hown⟩
    refine ⟨u0, hu0, rfl, ?_, ?_⟩
    · intro c0 hc0 heq
      exact hno (normalizeCrewUpn c0) ⟨c0, hc0, rfl⟩ (by
        rw [normalizeUserUpn_upn, normalizeCrewUpn_upn, heq])
    · rw [normalizeUserUpn_upn] at hown
      exact hown
  · rintro ⟨u0, hu0, rfl, hno, hown⟩
    refine ⟨⟨u0, hu0, rfl⟩, ?_, ?_⟩
    · rintro c ⟨c0, hc0, rfl⟩ heq
      rw [normalizeUserUpn_upn, normalizeCrewUpn_upn] at heq
      exact hno c0 hc0 heq.symm
    · rw [normalizeUserUpn_upn]
      exact hown

/-- Group member A of the claim's concrete diff example. -/
def exMemberA : User := { id := "idA", userPrincipalName := "Adele@Contoso.com" }

/-- Group member B of the claim's concrete diff example. -/
def exMemberB : User := { id := "idB", userPrincipalName := "bob@contoso.com" }

/-- Group member C of the claim's concrete diff example. -/
def exMemberC : User := { id := "idC", userPrincipalName := "Carol@contoso.com" }

/-- Crew member B of the claim's concrete diff example (same principal as
`exMemberB` up to casing). -/
def exCrewB : CrewMember := { userPrincipalName := "Bob@Contoso.com" }

/-- Crew member C of the claim's concrete diff example. -/
def exCrewC : CrewMember := { userPrincipalName := "carol@contoso.com" }

/-- Crew member D of the claim's concrete diff example. -/
def exCrewD : CrewMember := { userPrincipalName := "Dana@contoso.com" }

/-- C1: the update-phase membership diff matches on case-insensitive principal
names: `toAdd` is exactly the crew members whose lowercased UPN matches no
group member's, `toRemove` exactly the group members whose lowercased UPN
matches no crew member's and is not the active-owner UPN; the active owner is
never in `toRemove`; and for members `{A,B,C}` against crew `{B,C,D}` (matched
case-insensitively) the diff is `toAdd = {D}`, `toRemove = {A}`. -/
theorem upn_diff_case_insensitive (owner : String) (crew : List CrewMember)
    (members : List User) :
    (∀ c, c ∈ (membershipDiff owner crew members).1 ↔
      ∃ c0, c0 ∈ crew ∧ c = normalizeCrewUpn c0 ∧
        ∀ g, g ∈ members →
          toLowerCase g.userPrincipalName ≠ toLowerCase c0.userPrincipalName) ∧
    (∀ u, u ∈ (membershipDiff owner crew members).2 ↔
      ∃ u0, u0 ∈ members ∧ u = normalizeUserUpn u0 ∧
        (∀ c0, c0 ∈ crew →
          toLowerCase c0.userPrincipalName ≠ toLowerCase u0.userPrincipalName) ∧
        toLowerCase u0.userPrincipalName ≠ owner) ∧
    (∀ u, u ∈ (membershipDiff owner crew members).2 →
      u.userPrincipalName ≠ owner) ∧
    membershipDiff "owner@contoso.com" [exCrewB, exCrewC, exCrewD]
        [exMemberA, exMemberB, exMemberC] =
      ([{ userPrincipalName := "dana@contoso.com" }],
       [{ id := "idA", userPrincipalName := "adele@contoso.com" }]) := by
  refine ⟨diff_toAdd_char owner crew members,
    diff_toRemove_char owner crew members, ?_, by decide⟩
  intro u hu
  rcases (diff_toRemove_char owner crew members u).mp hu with
    ⟨u0, _hu0, rfl, _hno, hown⟩
  rw [normalizeUserUpn_upn]
  exact hown

/-! ## Reconciliation window boundaries
`createTeamsAsync` (lines 122-125) asks the trips store for trips departing in
`[triggerTime, triggerTime + 7 days]`; `MongoDbTripsApi.
findTripsDepartingInRangeAsync` (lines 48-67) filters with `$gte`/`$lte`, both
inclusive.  `archiveTeamsAsync` (lines 296-301) reads active teams created
before `triggerTime - 14 days` (a `$lte` filter on `creationTime` together
with `archivalTime $exists: false`, `MongoDbAppDataStore` lines 74-94) and
keeps those whose snapshot departure time is strictly before that cutoff.
`updateExistingTeamsAsync` (lines 235-240) reads active teams created before
`triggerTime` and keeps those departing strictly after `triggerTime - 7
days`. -/

/-- Upper bound of the Phase C creation window (line 124). -/
def maxDepartureTimeToCreate (triggerTime : Instant) : Instant :=
  triggerTime + daysInAdvanceToCreateTrips * msPerDay

/-- Archive cutoff (line 298). -/
def maxDepartureTimeToArchive (triggerTime : Instant) : Instant :=
  triggerTime - daysInPastToArchiveTrips * msPerDay

/-- Lower bound of the update-monitoring window (line 237). -/
def minDepartureTimeToUpdate (triggerTime : Instant) : Instant :=
  triggerTime - daysInPastToMonitorTrips * msPerDay

/-- `MongoDbTripsApi.findTripsDepartingInRangeAsync`: the `departureTime`
filter uses `$gte` on the start and `$lte` on the end, both inclusive. -/
def findTripsDepartingInRange (startTime endTime : Instant)
    (tripsDb : List Trip) : List Trip :=
  tripsDb.filter fun trip =>
    decide (startTime ≤ trip.departureTime) && decide (trip.departureTime ≤ endTime)

/-- `MongoDbAppDataStore.findActiveTeamsCreatedBeforeTimeAsync`: `creationTime
$lte endTime` and `archivalTime $exists false`. -/
def findActiveTeamsCreatedBeforeTime (endTime : Instant)
    (store : List TeamData) : List TeamData :=
  store.filter fun d => decide (d.creationTime ≤ endTime) && d.archivalTime.isNone

/-- Trips Phase C asks the trips store for (line 125). -/
def createCandidateTrips (triggerTime : Instant) (tripsDb : List Trip) :
    List Trip :=
  findTripsDepartingInRange triggerTime (maxDepartureTimeToCreate triggerTime) tripsDb

/-- Teams Phase A attempts to archive (lines 299-301). -/
def archiveCandidates (triggerTime : Instant) (store : List TeamData) :
    List TeamData :=
  (findActiveTeamsCreatedBeforeTime (maxDepartureTimeToArchive triggerTime) store).filter
    fun d => decide (d.tripSnapshot.departureTime < maxDepartureTimeToArchive triggerTime)

/-- Teams Phase B updates (lines 238-240). -/
def updateCandidates (triggerTime : Instant) (store : List TeamData) :
    List TeamData :=
  (findActiveTeamsCreatedBeforeTime triggerTime store).filter
    fun d => decide (minDepartureTimeToUpdate triggerTime < d.tripSnapshot.departureTime)

/-- C6: a trip departing exactly at `triggerTime + 7 days` is in the Phase C
candidate query result (inclusive `$lte` upper bound), and a tracked group
whose snapshot departs exactly at `triggerTime - 14 days` is never an archive
candidate (the departure comparison is strict `<`). -/
theorem window_boundaries_inclusive_exclusive :
    (∀ (t : Instant) (tripsDb : List Trip) (trip : Trip), trip ∈ tripsDb →
      trip.departureTime = maxDepartureTimeToCreate t →
      trip ∈ createCandidateTrips t tripsDb) ∧
    (∀ (t : Instant) (store : List TeamData) (d : TeamData),
      d.tripSnapshot.departureTime = maxDepartureTimeToArchive t →
      d ∉ archiveCandidates t store) := by
  constructor
  · intro t tripsDb trip hmem hdep
    simp only [createCandidateTrips, findTripsDepartingInRange, List.mem_filter,
      Bool.and_eq_true, decide_eq_true_eq]
    refine ⟨hmem, ?_, le_of_eq hdep⟩
    rw [hdep]
    unfold maxDepartureTimeToCreate
    exact le_add_of_nonneg_right (by decide)
  · intro t store d hdep hmem
    simp only [archiveCandidates, List.mem_filter, Bool.and_eq_true,
      decide_eq_true_eq] at hmem
    exact absurd hmem.2 (by rw [hdep]; exact lt_irrefl _)

/-- Trip of the C7 counterexample: departed 20 days before the trigger. -/
def lateTrip : Trip :=
  { tripId := "trip-late", departureTime := -(20 * msPerDay),
    flights := [{ flightNumber := "201", origin := "DXB", destination := "LHR" }],
    crewMembers := [] }

/-- Tracking record of the C7 counterexample: created at the trigger time
itself (after the archive cutoff), for a trip that departed 20 days ago. -/
def recentRecordLateTrip : TeamData :=
  { groupId := "grp-late", tripId := "trip-late", creationTime := 0,
    archivalTime := none, tripSnapshot := lateTrip }

/-- C7 counterexample: an active tracked group whose trip departed 20 days
before the trigger (well before the cutoff) is NOT an archive candidate,
because `archiveTeamsAsync` reads only records with `creationTime` at most
the cutoff, and this record was created at the trigger time. -/
theorem archive_candidates_depend_on_creation_time :
    recentRecordLateTrip.archivalTime = none ∧
    recentRecordLateTrip.tripSnapshot.departureTime < maxDepartureTimeToArchive 0 ∧
    recentRecordLateTrip ∉ archiveCandidates 0 [recentRecordLateTrip] := by
  refine ⟨rfl, by decide, ?_⟩
  intro hmem
  simp only [archiveCandidates, findActiveTeamsCreatedBeforeTime,
    List.mem_filter, Bool.and_eq_true, decide_eq_true_eq] at hmem
  exact absurd hmem.1.2.1 (by decide)

/-- C7 amended: the Phase A candidate set is exactly the active tracked
groups whose `creationTime` is at most the archive cutoff AND whose snapshot
departure time is strictly before the cutoff (the store query also filters on
`creationTime`, so a record's creation time does matter). -/
theorem archive_candidates_characterization (t : Instant)
    (store : List TeamData) (d : TeamData) :
    d ∈ archiveCandidates t store ↔
      d ∈ store ∧ d.archivalTime = none ∧
      d.creationTime ≤ maxDepartureTimeToArchive t ∧
      d.tripSnapshot.departureTime < maxDepartureTimeToArchive t := by
  simp only [archiveCandidates, findActiveTeamsCreatedBeforeTime,
    List.mem_filter, Bool.and_eq_true, decide_eq_true_eq,
    Option.isNone_iff_eq_none]
  tauto

/-! ## The archive procedure
`TeamsUpdater.archiveTeamAsync` (lines 331-384) reads members and owners,
ensures the archive owner is a member and an owner, removes all other
members (each removal in its own try/catch: failures are logged and
swallowed), renames the group unless already tagged, and finally removes
all other owners (again with per-owner try/catch).  Each remote call is an
oracle; the function returns the sequence of Graph calls it issues and the
overall outcome. -/

/-- One Graph call issued while archiving a team. -/
inductive ArchiveCall where
  | getMembers
  | getOwners
  | addMember (userId : String)
  | addOwner (userId : String)
  | removeMember (userId : String)
  | getGroup
  | rename (newName : String)
  | removeOwner (userId : String)
deriving DecidableEq, Repr

/-- Outcomes of the remote calls `archiveTeamAsync` makes for one group.
`removeMember` and `removeOwner` outcomes are recorded although the source
catches and logs those failures per item (lines 350-356 and 373-378), so
they never influence control flow. -/
structure ArchiveEnv where
  getMembers : Except ErrCode (List User)
  getOwners : Except ErrCode (List User)
  addMember : Except ErrCode Unit
  addOwner : Except ErrCode Unit
  removeMember : String → Except ErrCode Unit
  getGroup : Except ErrCode String
  rename : Except ErrCode Unit
  removeOwner : String → Except ErrCode Unit

/-- Line 339: the archive owner is missing from the member list (ids compared
lowercased against the already-lowercased owner id, line 394). -/
def needsArchiveOwnerAsMember (ownerId : String) (teamMembers : List User) : Bool :=
  ! teamMembers.any fun m => toLowerCase m.id == ownerId

/-- The member-add call of line 340, issued only when needed. -/
def memberAddCalls (ownerId : String) (teamMembers : List User) : List ArchiveCall :=
  if needsArchiveOwnerAsMember ownerId teamMembers then [.addMember ownerId] else []

/-- Outcome of step 2a: the add of line 340 when needed, a no-op otherwise. -/
def memberAddResult (ownerId : String) (env : ArchiveEnv) (teamMembers : List User) :
    Except ErrCode Unit :=
  if needsArchiveOwnerAsMember ownerId teamMembers then env.addMember else .ok ()

/-- Line 342: the archive owner is missing from the owner list. -/
def needsArchiveOwnerAsOwner (ownerId : String) (teamOwners : List User) : Bool :=
  ! teamOwners.any fun o => toLowerCase o.id == ownerId

/-- The owner-add call of line 343, issued only when needed. -/
def ownerAddCalls (ownerId : String) (teamOwners : List User) : List ArchiveCall :=
  if needsArchiveOwnerAsOwner ownerId teamOwners then [.addOwner ownerId] else []

/-- Outcome of step 2b: the add of line 343 when needed, a no-op otherwise. -/
def ownerAddResult (ownerId : String) (env : ArchiveEnv) (teamOwners : List User) :
    Except ErrCode Unit :=
  if needsArchiveOwnerAsOwner ownerId teamOwners then env.addOwner else .ok ()

/-- Step 3 (lines 348-357): one removal call per member other than the archive
owner; outcomes are caught per member, so only the calls matter. -/
def memberRemoveCalls (ownerId : String) (teamMembers : List User) : List ArchiveCall :=
  (teamMembers.filter fun m => toLowerCase m.id != ownerId).map
    fun m => ArchiveCall.removeMember m.id

/-- Step 4 (lines 361-366): rename unless the display name already starts with
the archived tag. -/
def renameCalls (displayName : String) : List ArchiveCall :=
  if ! jsStartsWith displayName archivedTag then
    [.rename (archivedTag ++ " " ++ displayName)]
  else []

/-- Outcome of step 4 when the rename is issued, a no-op otherwise. -/
def renameResult (env : ArchiveEnv) (displayName : String) : Except ErrCode Unit :=
  if ! jsStartsWith displayName archivedTag then env.rename else .ok ()

/-- Step 5 (lines 371-380): one removal call per owner other than the archive
owner; outcomes are caught per owner. -/
def ownerRemoveCalls (ownerId : String) (teamOwners : List User) : List ArchiveCall :=
  (teamOwners.filter fun o => toLowerCase o.id != ownerId).map
    fun o => ArchiveCall.removeOwner o.id

/-- `archiveTeamAsync`: the trace of Graph calls and the overall outcome.
Errors from the reads, the owner adds, `getGroupAsync` and the rename
propagate (abort the candidate); per-item removal failures are swallowed. -/
def archiveTeam (ownerId : String) (env : ArchiveEnv) :
    List ArchiveCall × Except ErrCode Unit :=
  match env.getMembers with
  | .error e => ([.getMembers], .error e)
  | .ok teamMembers =>
  match env.getOwners with
  | .error e => ([.getMembers, .getOwners], .error e)
  | .ok teamOwners =>
  match memberAddResult ownerId env teamMembers with
  | .error e =>
      ([.getMembers, .getOwners] ++ memberAddCalls ownerId teamMembers, .error e)
  | .ok _ =>
  match ownerAddResult ownerId env teamOwners with
  | .error e =>
      ([.getMembers, .getOwners] ++ memberAddCalls ownerId teamMembers ++
        ownerAddCalls ownerId teamOwners, .error e)
  | .ok _ =>
  match env.getGroup with
  | .error e =>
      ([.getMembers, .getOwners] ++ memberAddCalls ownerId teamMembers ++
        ownerAddCalls ownerId teamOwners ++ memberRemoveCalls ownerId teamMembers ++
        [.getGroup], .error e)
  | .ok displayName =>
  match renameResult env displayName with
  | .error e =>
      ([.getMembers, .getOwners] ++ memberAddCalls ownerId teamMembers ++
        ownerAddCalls ownerId teamOwners ++ memberRemoveCalls ownerId teamMembers ++
        [.getGroup] ++ renameCalls displayName, .error e)
  | .ok _ =>
      ([.getMembers, .getOwners] ++ memberAddCalls ownerId teamMembers ++
        ownerAddCalls ownerId teamOwners ++ memberRemoveCalls ownerId teamMembers ++
        [.getGroup] ++ renameCalls displayName ++ ownerRemoveCalls ownerId teamOwners,
       .ok ())

/-- Owner-removal calls of step 5. -/
def isOwnerRemoval : ArchiveCall → Bool
  | .removeOwner _ => true
  | _ => false

/-- Member-removal calls of step 3. -/
def isMemberRemoval : ArchiveCall → Bool
  | .removeMember _ => true
  | _ => false

/-- Rename calls of step 4. -/
def isRenameCall : ArchiveCall → Bool
  | .rename _ => true
  | _ => false

lemma all_false_append {α : Type} {p : α → Bool} {a b : List α}
    (ha : ∀ e ∈ a, p e = false) (hb : ∀ e ∈ b, p e = false) :
    ∀ e ∈ a ++ b, p e = false := by
  intro e he
  rcases List.mem_append.mp he with h | h
  · exact ha e h
  · exact hb e h

lemma base_no_ownerRemoval :
    ∀ e ∈ [ArchiveCall.getMembers, ArchiveCall.getOwners],
      isOwnerRemoval e = false := by
  intro e he
  rcases List.mem_cons.mp he with rfl | he
  · rfl
  · rw [List.mem_singleton.mp he]; rfl

lemma memberAddCalls_no_ownerRemoval (ownerId : String) (ms : List User) :
    ∀ e ∈ memberAddCalls ownerId ms, isOwnerRemoval e = false := by
  intro e he
  unfold memberAddCalls at he
  split at he
  · rw [List.mem_singleton.mp he]; rfl
  · simp at he

lemma ownerAddCalls_no_ownerRemoval (ownerId : String) (os : List User) :
    ∀ e ∈ ownerAddCalls ownerId os, isOwnerRemoval e = false := by
  intro e he
  unfold ownerAddCalls at he
  split at he
  · rw [List.mem_singleton.mp he]; rfl
  · simp at he

lemma memberRemoveCalls_no_ownerRemoval (ownerId : String) (ms : List User) :
    ∀ e ∈ memberRemoveCalls ownerId ms, isOwnerRemoval e = false := by
  intro e he
  rcases List.mem_map.mp he with ⟨m, _, rfl⟩
  rfl

lemma getGroup_no_ownerRemoval :
    ∀ e ∈ [ArchiveCall.getGroup], isOwnerRemoval e = false := by
  intro e he
  rw [List.mem_singleton.mp he]; rfl

lemma renameCalls_no_ownerRemoval (dn : String) :
    ∀ e ∈ renameCalls dn, isOwnerRemoval e = false := by
  intro e he
  unfold renameCalls at he
  split at he
  · rw [List.mem_singleton.mp he]; rfl
  · simp at he

/-- Every archive trace splits into a prefix free of owner removals followed
by the owner removals (empty in the aborted runs). -/
lemma archiveTeam_split (ownerId : String) (env : ArchiveEnv) :
    ∃ pre post, (archiveTeam ownerId env).1 = pre ++ post ∧
      (∀ e ∈ pre, isOwnerRemoval e = false) ∧
      (∀ e ∈ post, isOwnerRemoval e = true) := by
  have h1 := base_no_ownerRemoval
  unfold archiveTeam
  split
  · exact ⟨[.getMembers], [], by simp, fun e he => by
      rw [List.mem_singleton.mp he]; rfl, by simp⟩
  rename_i teamMembers hTeamMembers
  split
  · exact ⟨_, [], by simp, base_no_ownerRemoval, by simp⟩
  rename_i teamOwners hTeamOwners
  have h2 := memberAddCalls_no_ownerRemoval ownerId teamMembers
  have h3 := ownerAddCalls_no_ownerRemoval ownerId teamOwners
  have h4 := memberRemoveCalls_no_ownerRemoval ownerId teamMembers
  split
  · exact ⟨_, [], by simp, all_false_append h1 h2, by simp⟩
  split
  · exact ⟨_, [], by simp, all_false_append (all_false_append h1 h2) h3, by simp⟩
  split
  · exact ⟨_, [], by simp, all_false_append (all_false_append (all_false_append
      (all_false_append h1 h2) h3) h4) getGroup_no_ownerRemoval, by simp⟩
  rename_i displayName hDisplayName
  have h5 := renameCalls_no_ownerRemoval displayName
  split
  · exact ⟨_, [], by simp, all_false_append (all_false_append (all_false_append
      (all_false_append (all_false_append h1 h2) h3) h4)
      getGroup_no_ownerRemoval) h5, by simp⟩
  · refine ⟨_, ownerRemoveCalls ownerId teamOwners, rfl, ?_, ?_⟩
    · exact all_false_append (all_false_append (all_false_append
        (all_false_append (all_false_append h1 h2) h3) h4)
        getGroup_no_ownerRemoval) h5
    · intro e he
      rcases List.mem_map.mp he with ⟨o, _, rfl⟩
      rfl

lemma split_index_ordering {α : Type} (p : α → Bool) (l pre post : List α)
    (hl : l = pre ++ post)
    (hpre : ∀ e ∈ pre, p e = false) (hpost : ∀ e ∈ post, p e = true)
    (i j : Nat) (hi : i < l.length) (hj : j < l.length)
    (hpi : p (l.get ⟨i, hi⟩) = true)
    (hpj : p (l.get ⟨j, hj⟩) = false) : j < i := by
  subst hl
  have hil : pre.length ≤ i := by
    by_contra hlt
    push_neg at hlt
    have heq : (pre ++ post).get ⟨i, hi⟩ = pre.get ⟨i, hlt⟩ := by
      simp only [List.get_eq_getElem]
      exact List.getElem_append_left hlt
    rw [heq, hpre _ (pre.get_mem i hlt)] at hpi
    exact Bool.false_ne_true hpi
  have hjl : j < pre.length := by
    by_contra hge
    push_neg at hge
    have hr : j - pre.length < post.length := by
      have := hj
      simp only [List.length_append] at this
      omega
    have heq : (pre ++ post).get ⟨j, hj⟩ = post.get ⟨j - pre.length, hr⟩ := by
      simp only [List.get_eq_getElem]
      exact List.getElem_append_right hge
    rw [heq, hpost _ (post.get_mem _ hr)] at hpj
    simp at hpj
  omega

lemma isOwnerRemoval_false_of_memberRemoval {c : ArchiveCall}
    (h : isMemberRemoval c = true) : isOwnerRemoval c = false := by
  cases c <;> simp [isMemberRemoval, isOwnerRemoval] at h ⊢

lemma isOwnerRemoval_false_of_rename {c : ArchiveCall}
    (h : isRenameCall c = true) : isOwnerRemoval c = false := by
  cases c <;> simp [isRenameCall, isOwnerRemoval] at h ⊢

/-- C2: in every run of the archive procedure, owner removal comes last: any
owner-removal call in the trace has a strictly larger index than every
member-removal and every rename call. -/
theorem archive_owner_removal_last (ownerId : String) (env : ArchiveEnv)
    (i j : Nat) (hi : i < (archiveTeam ownerId env).1.length)
    (hj : j < (archiveTeam ownerId env).1.length)
    (hOwn : isOwnerRemoval ((archiveTeam ownerId env).1.get ⟨i, hi⟩) = true)
    (hStep : isMemberRemoval ((archiveTeam ownerId env).1.get ⟨j, hj⟩) = true ∨
      isRenameCall ((archiveTeam ownerId env).1.get ⟨j, hj⟩) = true) :
    j < i := by
  obtain ⟨pre, post, hsplit, hpre, hpost⟩ := archiveTeam_split ownerId env
  have hnotOwn : isOwnerRemoval ((archiveTeam ownerId env).1.get ⟨j, hj⟩) = false := by
    rcases hStep with h | h
    · exact isOwnerRemoval_false_of_memberRemoval h
    · exact isOwnerRemoval_false_of_rename h
  exact split_index_ordering isOwnerRemoval _ pre post hsplit hpre hpost
    i j hi hj hOwn hnotOwn

/-- Archive environment in which every remote call succeeds, over one plain
member and one plain owner. -/
def archiveEnvAllOk : ArchiveEnv :=
  { getMembers := .ok [{ id := "M1", userPrincipalName := "m1@contoso.com" }]
    getOwners := .ok [{ id := "O1", userPrincipalName := "o1@contoso.com" }]
    addMember := .ok ()
    addOwner := .ok ()
    removeMember := fun _ => .ok ()
    getGroup := .ok "EK123 2018-05-15"
    rename := .ok ()
    removeOwner := fun _ => .ok () }

/-- Closed instance of the archive ordering theorem: in the all-success run
over one member and one owner, the member removal (index 4) precedes the
owner removal (index 7). -/
theorem archive_owner_removal_last_witness : 4 < 7 :=
  archive_owner_removal_last "arch" archiveEnvAllOk 7 4 (by decide) (by decide)
    (by decide) (Or.inl (by decide))

/-! ## The tracking store and the archive phase -/

/-- `MongoDbAppDataStore.addOrUpdateTeamDataAsync` (lines 42-51): `updateOne`
with upsert filtered on `groupId` — replace the first record with the same
`groupId`, append when there is none. -/
def addOrUpdateTeamData (d : TeamData) : List TeamData → List TeamData
  | [] => [d]
  | x :: xs =>
      if x.groupId == d.groupId then d :: xs else x :: addOrUpdateTeamData d xs

/-- Per-candidate step of `archiveTeamsAsync` (lines 306-322): archive the
group; on success set `archivalTime := triggerTime` and upsert the record; on
error log and leave the record untouched. -/
def archiveStep (archivedOwnerId : String) (triggerTime : Instant)
    (aenv : String → ArchiveEnv) (st : List TeamData) (d : TeamData) :
    List TeamData :=
  match (archiveTeam archivedOwnerId (aenv d.groupId)).2 with
  | .ok _ => addOrUpdateTeamData { d with archivalTime := some triggerTime } st
  | .error _ => st

/-- The fan-out of `archiveTeamsAsync` over its candidates, sequentialized
(each candidate touches only its own record). -/
def archiveFold (archivedOwnerId : String) (triggerTime : Instant)
    (aenv : String → ArchiveEnv) (candidates : List TeamData)
    (store : List TeamData) : List TeamData :=
  candidates.foldl (archiveStep archivedOwnerId triggerTime aenv) store

/-- `archiveTeamsAsync` (lines 296-324) with the store read as an oracle: the
phase raises only when the read raises; every candidate failure is caught in
the per-candidate try/catch. -/
def archiveTeamsPhase (archivedOwnerId : String) (triggerTime : Instant)
    (read : Except ErrCode (List TeamData)) (aenv : String → ArchiveEnv)
    (store : List TeamData) : Except ErrCode (List TeamData) :=
  match read with
  | .error e => .error e
  | .ok activeTeams =>
      .ok (archiveFold archivedOwnerId triggerTime aenv
        (activeTeams.filter fun d =>
          decide (d.tripSnapshot.departureTime < maxDepartureTimeToArchive triggerTime))
        store)

/-- `archiveTeamsAsync` with the candidate read evaluated on the store itself,
as `findActiveTeamsCreatedBeforeTimeAsync` does. -/
def archiveRun (archivedOwnerId : String) (triggerTime : Instant)
    (aenv : String → ArchiveEnv) (store : List TeamData) : List TeamData :=
  archiveFold archivedOwnerId triggerTime aenv
    (archiveCandidates triggerTime store) store

/-- Trip of the C8 counterexample: departed 15 days before the trigger. -/
def oldTrip : Trip :=
  { tripId := "trip-old", departureTime := -(15 * msPerDay),
    flights := [{ flightNumber := "202", origin := "DXB", destination := "SYD" }],
    crewMembers := [] }

/-- Active tracking record of the C8 counterexample, eligible for archival. -/
def trackedOldTrip : TeamData :=
  { groupId := "grp-old", tripId := "trip-old",
    creationTime := -(15 * msPerDay), archivalTime := none,
    tripSnapshot := oldTrip }

/-- Archive environment of the C8 counterexample: identical to
`archiveEnvAllOk` except that every member-removal call fails with a server
error (500), a non-benign status. -/
def archiveEnvRemovalFails : ArchiveEnv :=
  { getMembers := .ok [{ id := "M1", userPrincipalName := "m1@contoso.com" }]
    getOwners := .ok [{ id := "O1", userPrincipalName := "o1@contoso.com" }]
    addMember := .ok ()
    addOwner := .ok ()
    removeMember := fun _ => .error 500
    getGroup := .ok "EK202 2018-05-15"
    rename := .ok ()
    removeOwner := fun _ => .ok () }

/-- C8 counterexample: the member-removal call for M1 fails with status 500
(not "already in desired state", not "not found"), yet the archive procedure
returns success and the phase records `archivalTime` — the candidate is not
aborted, contradicting the claim. -/
theorem archive_member_removal_error_swallowed :
    archiveEnvRemovalFails.removeMember "M1" = .error 500 ∧
    ArchiveCall.removeMember "M1" ∈ (archiveTeam "arch" archiveEnvRemovalFails).1 ∧
    (archiveTeam "arch" archiveEnvRemovalFails).2 = .ok () ∧
    archiveTeamsPhase "arch" 0 (.ok [trackedOldTrip])
        (fun _ => archiveEnvRemovalFails) [trackedOldTrip] =
      .ok [{ trackedOldTrip with archivalTime := some 0 }] := by decide

/-- C8 amended: the two reads, the archive-owner adds, the group read and the
rename abort the candidate on any error — the phase then leaves the record
unchanged (still active) for the next trigger; per-item member- and
owner-removal failures are swallowed and never abort, and a candidate whose
procedure succeeds gets `archivalTime := triggerTime` upserted. -/
theorem archive_error_containment :
    (∀ (ownerId : String) (env : ArchiveEnv) (ms os : List User) (dn : String),
      env.getMembers = .ok ms → env.getOwners = .ok os →
      env.addMember = .ok () → env.addOwner = .ok () →
      env.getGroup = .ok dn → env.rename = .ok () →
      (archiveTeam ownerId env).2 = .ok ()) ∧
    (∀ (ownerId : String) (env : ArchiveEnv) (e : ErrCode),
      env.getMembers = .error e → (archiveTeam ownerId env).2 = .error e) ∧
    (∀ (ownerId : String) (env : ArchiveEnv) (ms os : List User) (dn : String)
      (e : ErrCode),
      env.getMembers = .ok ms → env.getOwners = .ok os →
      env.addMember = .ok () → env.addOwner = .ok () →
      env.getGroup = .ok dn → jsStartsWith dn archivedTag = false →
      env.rename = .error e → (archiveTeam ownerId env).2 = .error e) ∧
    (∀ (ownerId : String) (t : Instant) (aenv : String → ArchiveEnv)
      (d : TeamData) (store : List TeamData) (e : ErrCode),
      (archiveTeam ownerId (aenv d.groupId)).2 = .error e →
      archiveTeamsPhase ownerId t (.ok [d]) aenv store = .ok store) ∧
    (∀ (ownerId : String) (t : Instant) (aenv : String → ArchiveEnv)
      (d : TeamData) (store : List TeamData),
      (archiveTeam ownerId (aenv d.groupId)).2 = .ok () →
      d.tripSnapshot.departureTime < maxDepartureTimeToArchive t →
      archiveTeamsPhase ownerId t (.ok [d]) aenv store =
        .ok (addOrUpdateTeamData { d with archivalTime := some t } store)) := by
  refine ⟨?_, ?_, ?_, ?_, ?_⟩
  · intro ownerId env ms os dn h1 h2 h3 h4 h5 h6
    unfold archiveTeam
    rw [h1, h2, h5]
    simp only [memberAddResult, ownerAddResult, renameResult, h3, h4, h6, ite_self]
  · intro ownerId env e h
    unfold archiveTeam
    rw [h]
  · intro ownerId env ms os dn e h1 h2 h3 h4 h5 hTag h6
    unfold archiveTeam
    rw [h1, h2, h5]
    simp only [memberAddResult, ownerAddResult, renameResult, h3, h4, h6, hTag,
      ite_self, Bool.not_false, if_true]
  · intro ownerId t aenv d store e h
    unfold archiveTeamsPhase archiveFold
    simp only [List.filter]
    cases hc : decide (d.tripSnapshot.departureTime < maxDepartureTimeToArchive t) with
    | false =>
      simp only [List.foldl_nil]
    | true =>
      simp only [List.foldl_cons, List.foldl_nil, archiveStep, h]
  · intro ownerId t aenv d store hok hdep
    unfold archiveTeamsPhase archiveFold
    simp only [List.filter, decide_eq_true hdep, List.foldl_cons, List.foldl_nil,
      archiveStep, hok]

/-! ## The update phase (Phase B)
`TeamsUpdater.updateExistingTeamsAsync` (lines 235-293): per candidate, fetch
the trip, fetch the group members, add missing crew (resolving each principal
name to a user first), remove members no longer on the roster (sparing the
active owner), then persist the refreshed snapshot.  All remote calls of one
candidate live in one try/catch: the first failure skips the candidate. -/

/-- Remote-call outcomes consumed by the update phase. -/
structure UpdatePhaseEnv where
  getTrip : String → Except ErrCode Trip
  getGroupMembers : String → Except ErrCode (List User)
  getUserByUpn : String → Except ErrCode User
  addMember : String → String → Except ErrCode Unit
  removeMember : String → String → Except ErrCode Unit

/-- Resolve-then-add loop over `crewMembersToAdd` (lines 262-266);
`Promise.all` rejects with the first failure, which the per-candidate catch
then sees. -/
def resolveAndAddAll (env : UpdatePhaseEnv) (groupId : String) :
    List CrewMember → Except ErrCode Unit
  | [] => .ok ()
  | c :: cs =>
    match env.getUserByUpn c.userPrincipalName with
    | .error e => .error e
    | .ok u =>
      match env.addMember groupId u.id with
      | .error e => .error e
      | .ok _ => resolveAndAddAll env groupId cs

/-- Removal loop over `groupMembersToRemove` (lines 275-278). -/
def removeAllMembers (env : UpdatePhaseEnv) (groupId : String) :
    List User → Except ErrCode Unit
  | [] => .ok ()
  | g :: gs =>
    match env.removeMember groupId g.id with
    | .error e => .error e
    | .ok _ => removeAllMembers env groupId gs

/-- Body of one update candidate (lines 245-287).  `normalizeUpnCasing`
mutates the fetched trip's crew in place (line 251), so the snapshot persisted
on success carries the lowercased principal names. -/
def updateTeamBody (activeTeamOwnerUpn : String) (env : UpdatePhaseEnv)
    (d : TeamData) : Except ErrCode TeamData :=
  match env.getTrip d.tripId with
  | .error e => .error e
  | .ok trip =>
  match env.getGroupMembers d.groupId with
  | .error e => .error e
  | .ok groupMembers =>
  let tripN := { trip with crewMembers := normalizeCrewUpnCasing trip.crewMembers }
  let memN := normalizeUserUpnCasing groupMembers
  match resolveAndAddAll env d.groupId (crewMembersToAdd tripN.crewMembers memN) with
  | .error e => .error e
  | .ok _ =>
  match removeAllMembers env d.groupId
      (groupMembersToRemove activeTeamOwnerUpn tripN.crewMembers memN) with
  | .error e => .error e
  | .ok _ => .ok { d with tripSnapshot := tripN }

/-- Per-candidate step of the update phase: upsert the refreshed record on
success, leave the store untouched on failure. -/
def updateStep (activeTeamOwnerUpn : String) (env : UpdatePhaseEnv)
    (st : List TeamData) (d : TeamData) : List TeamData :=
  match updateTeamBody activeTeamOwnerUpn env d with
  | .ok d2 => addOrUpdateTeamData d2 st
  | .error _ => st

/-- The fan-out of `updateExistingTeamsAsync`, sequentialized. -/
def updateFold (activeTeamOwnerUpn : String) (env : UpdatePhaseEnv)
    (candidates : List TeamData) (store : List TeamData) : List TeamData :=
  candidates.foldl (updateStep activeTeamOwnerUpn env) store

/-- `updateExistingTeamsAsync` with the store read as an oracle. -/
def updateExistingTeamsPhase (activeTeamOwnerUpn : String)
    (triggerTime : Instant) (read : Except ErrCode (List TeamData))
    (env : UpdatePhaseEnv) (store : List TeamData) :
    Except ErrCode (List TeamData) :=
  match read with
  | .error e => .error e
  | .ok activeTeams =>
      .ok (updateFold activeTeamOwnerUpn env
        (activeTeams.filter fun d =>
          decide (minDepartureTimeToUpdate triggerTime < d.tripSnapshot.departureTime))
        store)

/-- `updateExistingTeamsAsync` with the candidate read evaluated on the store
itself. -/
def updateRun (activeTeamOwnerUpn : String) (triggerTime : Instant)
    (env : UpdatePhaseEnv) (store : List TeamData) : List TeamData :=
  updateFold activeTeamOwnerUpn env (updateCandidates triggerTime store) store

/-! ## The create phase (Phase C)
`TeamsUpdater.createTeamsAsync` (lines 122-153): for each trip of the range
query, look the trip up in the tracking store by trip id; when no record
exists, create a team (the whole `createTeamForTripAsync` call is abstracted
as one fallible operation here) and persist a new record with
`creationTime := triggerTime`.  Each trip's work sits in its own try/catch. -/

/-- Per-trip step of the create phase (lines 130-151).  The snapshot persisted
carries the crew list as `createTeamForTripAsync` left it: `normalizeUpnCasing`
mutated it in place (line 204). -/
def createStep (triggerTime : Instant) (create : Trip → Except ErrCode String)
    (st : List TeamData) (trip : Trip) : List TeamData :=
  match st.find? fun d => d.tripId == trip.tripId with
  | some _ => st
  | none =>
    match create trip with
    | .error _ => st
    | .ok groupId =>
        addOrUpdateTeamData
          { groupId := groupId, tripId := trip.tripId,
            creationTime := triggerTime, archivalTime := none,
            tripSnapshot :=
              { trip with crewMembers := normalizeCrewUpnCasing trip.crewMembers } }
          st

/-- The fan-out of `createTeamsAsync` over the queried trips, sequentialized. -/
def createTeamsRun (triggerTime : Instant) (create : Trip → Except ErrCode String)
    (trips : List Trip) (store : List TeamData) : List TeamData :=
  trips.foldl (createStep triggerTime create) store

/-- `createTeamsAsync` with the trips read as an oracle. -/
def createTeamsPhase (triggerTime : Instant)
    (read : Except ErrCode (List Trip)) (create : Trip → Except ErrCode String)
    (store : List TeamData) : Except ErrCode (List TeamData) :=
  match read with
  | .error e => .error e
  | .ok trips => .ok (createTeamsRun triggerTime create trips store)

/-! ## The reconciliation entry point
`TeamsUpdater.updateTeamsAsync` (lines 87-95) resolves the two owner accounts
(`resolveTeamOwnersAsync`, lines 387-396, lowercasing the resolved ids), then
runs archive, update and create strictly in that order.  Resolution and the
three candidate-set reads are awaited outside any try/catch, so their
failures raise out of the trigger; everything per candidate is caught. -/

/-- All remote-call outcomes one reconciliation cycle consumes. -/
structure ReconcileEnv where
  resolveActiveOwner : Except ErrCode User
  resolveArchivedOwner : Except ErrCode User
  readArchiveCandidates : Except ErrCode (List TeamData)
  archiveEnv : String → ArchiveEnv
  readUpdateCandidates : Except ErrCode (List TeamData)
  updateEnv : UpdatePhaseEnv
  readTripsInRange : Except ErrCode (List Trip)
  createTeamForTrip : Trip → Except ErrCode String

/-- `updateTeamsAsync`: owner resolution, then the three phases in order,
threading the tracking store through. -/
def updateTeams (activeTeamOwnerUpnCfg : String) (triggerTime : Instant)
    (env : ReconcileEnv) (store : List TeamData) :
    Except ErrCode (List TeamData) :=
  match env.resolveActiveOwner with
  | .error e => .error e
  | .ok _ =>
  match env.resolveArchivedOwner with
  | .error e => .error e
  | .ok archivedOwner =>
  match archiveTeamsPhase (toLowerCase archivedOwner.id) triggerTime
      env.readArchiveCandidates env.archiveEnv store with
  | .error e => .error e
  | .ok st1 =>
  match updateExistingTeamsPhase (toLowerCase activeTeamOwnerUpnCfg) triggerTime
      env.readUpdateCandidates env.updateEnv st1 with
  | .error e => .error e
  | .ok st2 =>
      createTeamsPhase triggerTime env.readTripsInRange env.createTeamForTrip st2

/-- Update-phase environment in which every remote call succeeds trivially. -/
def updateEnvAllOk : UpdatePhaseEnv :=
  { getTrip := fun tid =>
      .ok { tripId := tid, departureTime := 0, flights := [], crewMembers := [] }
    getGroupMembers := fun _ => .ok []
    getUserByUpn := fun upn => .ok { id := "uid", userPrincipalName := upn }
    addMember := fun _ _ => .ok ()
    removeMember := fun _ _ => .ok () }

/-- Reconcile environment of the C9 counterexample: resolving the active
owner account fails with 401 while every candidate-set read succeeds. -/
def reconcileEnvResolutionFails : ReconcileEnv :=
  { resolveActiveOwner := .error 401
    resolveArchivedOwner := .ok { id := "arch", userPrincipalName := "arch@contoso.com" }
    readArchiveCandidates := .ok []
    archiveEnv := fun _ => archiveEnvAllOk
    readUpdateCandidates := .ok []
    updateEnv := updateEnvAllOk
    readTripsInRange := .ok []
    createTeamForTrip := fun _ => .ok "grp-new" }

/-- C9 counterexample: every candidate-set read succeeds, yet the cycle
raises, because `resolveTeamOwnersAsync` (awaited before the phases, outside
any try/catch) fails — so "reconcile raises only when reading a phase's
candidate set fails" is false on the code. -/
theorem reconcile_raises_on_owner_resolution :
    updateTeams "owner@contoso.com" 0 reconcileEnvResolutionFails [] = .error 401 ∧
    reconcileEnvResolutionFails.readArchiveCandidates = .ok [] ∧
    reconcileEnvResolutionFails.readUpdateCandidates = .ok [] ∧
    reconcileEnvResolutionFails.readTripsInRange = .ok [] := by decide

/-- C9 amended: the cycle succeeds exactly when owner resolution and the
three candidate-set reads succeed — no per-candidate outcome can make it
raise — and within each phase a failing candidate is simply skipped, leaving
the processing of the remaining candidates untouched. -/
theorem reconcile_failure_containment :
    (∀ (upnCfg : String) (t : Instant) (env : ReconcileEnv) (store : List TeamData),
      (∃ st, updateTeams upnCfg t env store = .ok st) ↔
        ((∃ u, env.resolveActiveOwner = .ok u) ∧
         (∃ u, env.resolveArchivedOwner = .ok u) ∧
         (∃ l, env.readArchiveCandidates = .ok l) ∧
         (∃ l, env.readUpdateCandidates = .ok l) ∧
         (∃ l, env.readTripsInRange = .ok l))) ∧
    (∀ (ownerId : String) (t : Instant) (aenv : String → ArchiveEnv)
      (d : TeamData) (rest : List TeamData) (store : List TeamData) (e : ErrCode),
      (archiveTeam ownerId (aenv d.groupId)).2 = .error e →
      archiveFold ownerId t aenv (d :: rest) store =
        archiveFold ownerId t aenv rest store) ∧
    (∀ (ownerUpn : String) (env : UpdatePhaseEnv) (d : TeamData)
      (rest : List TeamData) (store : List TeamData) (e : ErrCode),
      updateTeamBody ownerUpn env d = .error e →
      updateFold ownerUpn env (d :: rest) store = updateFold ownerUpn env rest store) ∧
    (∀ (t : Instant) (create : Trip → Except ErrCode String) (trip : Trip)
      (rest : List Trip) (store : List TeamData) (e : ErrCode),
      create trip = .error e →
      createTeamsRun t create (trip :: rest) store =
        createTeamsRun t create rest store) := by
  refine ⟨?_, ?_, ?_, ?_⟩
  · intro upnCfg t env store
    unfold updateTeams
    cases env.resolveActiveOwner with
    | error e => simp
    | ok activeOwner =>
    cases env.resolveArchivedOwner with
    | error e => simp
    | ok archivedOwner =>
    unfold archiveTeamsPhase
    cases env.readArchiveCandidates with
    | error e => simp
    | ok l1 =>
    unfold updateExistingTeamsPhase
    cases env.readUpdateCandidates with
    | error e => simp
    | ok l2 =>
    unfold createTeamsPhase
    cases env.readTripsInRange with
    | error e => simp
    | ok l3 => simp
  · intro ownerId t aenv d rest store e h
    unfold archiveFold
    simp only [List.foldl_cons]
    rw [show archiveStep ownerId t aenv store d = store by
      unfold archiveStep; rw [h]]
  · intro ownerUpn env d rest store e h
    unfold updateFold
    simp only [List.foldl_cons]
    rw [show updateStep ownerUpn env store d = store by
      unfold updateStep; rw [h]]
  · intro t create trip rest store e h
    unfold createTeamsRun
    simp only [List.foldl_cons]
    rw [show createStep t create store trip = store by
      unfold createStep
      cases store.find? fun d => d.tripId == trip.tripId with
      | some d0 => rfl
      | none => rw [h]]


/-! ## Phase C idempotence (C3) -/

def groupTripPairs (store : List TeamData) : List (String × String) :=
  store.map fun d => (d.groupId, d.tripId)

def countTripRecords (tripId : String) (store : List TeamData) : Nat :=
  (store.filter fun d => d.tripId == tripId).length

lemma countTripRecords_nil (tid : String) : countTripRecords tid [] = 0 := rfl

lemma countTripRecords_cons (tid : String) (x : TeamData) (xs : List TeamData) :
    countTripRecords tid (x :: xs) =
      (if x.tripId == tid then 1 else 0) + countTripRecords tid xs := by
  unfold countTripRecords
  rw [List.filter_cons]
  split <;> simp [Nat.add_comm]

lemma count_addOrUpdate_le (tid : String) (d : TeamData) (st : List TeamData) :
    countTripRecords tid (addOrUpdateTeamData d st) ≤
      countTripRecords tid st + (if d.tripId == tid then 1 else 0) := by
  induction st with
  | nil =>
    simp only [addOrUpdateTeamData, countTripRecords_cons, countTripRecords_nil]
    omega
  | cons x xs ih =>
    simp only [addOrUpdateTeamData]
    split
    · simp only [countTripRecords_cons]
      omega
    · simp only [countTripRecords_cons]
      omega

lemma gid_mem_addOrUpdate {g : String} {d : TeamData} {st : List TeamData}
    (h : g ∈ (addOrUpdateTeamData d st).map fun x => x.groupId) :
    g = d.groupId ∨ g ∈ st.map fun x => x.groupId := by
  induction st with
  | nil =>
    unfold addOrUpdateTeamData at h
    simp at h
    exact Or.inl h
  | cons x xs ih =>
    unfold addOrUpdateTeamData at h
    split at h
    · simp only [List.map_cons, List.mem_cons] at h ⊢
      rcases h with h | h
      · exact Or.inl h
      · exact Or.inr (Or.inr h)
    · simp only [List.map_cons, List.mem_cons] at h ⊢
      rcases h with h | h
      · exact Or.inr (Or.inl h)
      · rcases ih h with h2 | h2
        · exact Or.inl h2
        · exact Or.inr (Or.inr h2)

lemma nodup_gid_addOrUpdate {d : TeamData} {st : List TeamData}
    (h : (st.map fun x => x.groupId).Nodup) :
    ((addOrUpdateTeamData d st).map fun x => x.groupId).Nodup := by
  induction st with
  | nil =>
    unfold addOrUpdateTeamData
    simp
  | cons x xs ih =>
    unfold addOrUpdateTeamData
    simp only [List.map_cons, List.nodup_cons] at h
    split
    · rename_i hbeq
      simp only [List.map_cons, List.nodup_cons]
      refine ⟨?_, h.2⟩
      rw [show d.groupId = x.groupId from (beq_iff_eq.mp hbeq).symm]
      exact h.1
    · rename_i hbeq
      simp only [List.map_cons, List.nodup_cons]
      refine ⟨?_, ih h.2⟩
      intro hmem
      rcases gid_mem_addOrUpdate hmem with h2 | h2
      · exact hbeq (beq_iff_eq.mpr h2)
      · exact h.1 h2

lemma pairs_addOrUpdate {d : TeamData} {st : List TeamData}
    (hnodup : (st.map fun x => x.groupId).Nodup)
    (hmem : (d.groupId, d.tripId) ∈ groupTripPairs st) :
    groupTripPairs (addOrUpdateTeamData d st) = groupTripPairs st := by
  induction st with
  | nil => simp [groupTripPairs] at hmem
  | cons x xs ih =>
    simp only [List.map_cons, List.nodup_cons] at hnodup
    unfold addOrUpdateTeamData
    split
    · rename_i hbeq
      have hgid : x.groupId = d.groupId := beq_iff_eq.mp hbeq
      simp only [groupTripPairs, List.map_cons, List.mem_cons] at hmem ⊢
      rcases hmem with hp | hp
      · have h1 : d.groupId = x.groupId := congrArg Prod.fst hp
        have h2 : d.tripId = x.tripId := congrArg Prod.snd hp
        rw [h1, h2]
      · exfalso
        apply hnodup.1
        have : d.groupId ∈ (List.map (fun d => (d.groupId, d.tripId)) xs).map Prod.fst :=
          List.mem_map.mpr ⟨(d.groupId, d.tripId), hp, rfl⟩
        rw [hgid]
        simpa [List.map_map, Function.comp] using this
    · rename_i hbeq
      simp only [groupTripPairs, List.map_cons, List.mem_cons] at hmem
      rcases hmem with hp | hp
      · exfalso
        exact hbeq (beq_iff_eq.mpr (congrArg Prod.fst hp).symm)
      · simp only [groupTripPairs, List.map_cons]
        have h3 := ih hnodup.2 hp
        simp only [groupTripPairs] at h3
        rw [h3]


lemma gids_eq_pairs_fst (st : List TeamData) :
    (groupTripPairs st).map Prod.fst = st.map fun d => d.groupId := by
  rw [groupTripPairs, List.map_map]
  rfl

lemma nodup_gids_of_pairs_eq {st store : List TeamData}
    (hpairs : groupTripPairs st = groupTripPairs store)
    (hnodup : (store.map fun d => d.groupId).Nodup) :
    (st.map fun d => d.groupId).Nodup := by
  rw [← gids_eq_pairs_fst] at hnodup ⊢
  rw [hpairs]
  exact hnodup

lemma countTripRecords_eq_pairs (tid : String) (st : List TeamData) :
    countTripRecords tid st =
      ((groupTripPairs st).filter fun p => p.2 == tid).length := by
  induction st with
  | nil => rfl
  | cons x xs ih =>
    simp only [groupTripPairs, List.map_cons, List.filter_cons] at ih ⊢
    rw [countTripRecords_cons, ih]
    by_cases hx : (x.tripId == tid) = true
    · simp [hx]
      omega
    · simp [hx]
  
lemma count_eq_of_pairs_eq {st store : List TeamData}
    (hpairs : groupTripPairs st = groupTripPairs store) (tid : String) :
    countTripRecords tid st = countTripRecords tid store := by
  rw [countTripRecords_eq_pairs, countTripRecords_eq_pairs, hpairs]

lemma archiveFold_pairs (ownerId : String) (t : Instant)
    (aenv : String → ArchiveEnv) (cands : List TeamData)
    (store : List TeamData) :
    ∀ st, groupTripPairs st = groupTripPairs store →
    (store.map fun d => d.groupId).Nodup →
    (∀ d ∈ cands, (d.groupId, d.tripId) ∈ groupTripPairs store) →
    groupTripPairs (archiveFold ownerId t aenv cands st) = groupTripPairs store := by
  induction cands with
  | nil => intro st hst _ _; exact hst
  | cons d rest ih =>
    intro st hst hnodup hcands
    unfold archiveFold
    simp only [List.foldl_cons]
    have hstep : groupTripPairs (archiveStep ownerId t aenv st d) = groupTripPairs store := by
      unfold archiveStep
      split
      · rw [show groupTripPairs (addOrUpdateTeamData { d with archivalTime := some t } st) = groupTripPairs st from
          pairs_addOrUpdate (nodup_gids_of_pairs_eq hst hnodup)
            (by rw [hst]; exact hcands d (List.mem_cons_self d rest))]
        exact hst
      · exact hst
    exact ih (archiveStep ownerId t aenv st d) hstep hnodup
      (fun x hx => hcands x (List.mem_cons_of_mem d hx))

lemma updateTeamBody_preserves_ids {ownerUpn : String} {env : UpdatePhaseEnv}
    {d d2 : TeamData} (h : updateTeamBody ownerUpn env d = .ok d2) :
    d2.groupId = d.groupId ∧ d2.tripId = d.tripId := by
  simp only [updateTeamBody] at h
  split at h
  · exact absurd h (by simp)
  split at h
  · exact absurd h (by simp)
  split at h
  · exact absurd h (by simp)
  split at h
  · exact absurd h (by simp)
  injection h with h2
  subst h2
  exact ⟨rfl, rfl⟩

lemma updateFold_pairs (ownerUpn : String) (env : UpdatePhaseEnv)
    (cands : List TeamData) (store : List TeamData) :
    ∀ st, groupTripPairs st = groupTripPairs store →
    (store.map fun d => d.groupId).Nodup →
    (∀ d ∈ cands, (d.groupId, d.tripId) ∈ groupTripPairs store) →
    groupTripPairs (updateFold ownerUpn env cands st) = groupTripPairs store := by
  induction cands with
  | nil => intro st hst _ _; exact hst
  | cons d rest ih =>
    intro st hst hnodup hcands
    unfold updateFold
    simp only [List.foldl_cons]
    have hstep : groupTripPairs (updateStep ownerUpn env st d) = groupTripPairs store := by
      unfold updateStep
      split
      · rename_i d2 hok
        obtain ⟨hg, ht⟩ := updateTeamBody_preserves_ids hok
        rw [show groupTripPairs (addOrUpdateTeamData d2 st) = groupTripPairs st from
          pairs_addOrUpdate (nodup_gids_of_pairs_eq hst hnodup)
            (by rw [hg, ht, hst]; exact hcands d (List.mem_cons_self d rest))]
        exact hst
      · exact hst
    exact ih (updateStep ownerUpn env st d) hstep hnodup
      (fun x hx => hcands x (List.mem_cons_of_mem d hx))


lemma find?_none_count_zero {st : List TeamData} {tid : String}
    (h : (st.find? fun d => d.tripId == tid) = none) :
    countTripRecords tid st = 0 := by
  unfold countTripRecords
  rw [List.length_eq_zero]
  rw [List.filter_eq_nil_iff]
  intro a ha
  exact List.find?_eq_none.mp h a ha

lemma count_createStep_le (tid : String) (t : Instant)
    (create : Trip → Except ErrCode String) (st : List TeamData) (trip : Trip) :
    countTripRecords tid (createStep t create st trip) ≤
      max (countTripRecords tid st) 1 := by
  unfold createStep
  split
  · exact le_max_left _ _
  rename_i hfind
  split
  · exact le_max_left _ _
  rename_i gid hok
  have hle : countTripRecords tid (addOrUpdateTeamData
      { groupId := gid, tripId := trip.tripId, creationTime := t,
        archivalTime := none,
        tripSnapshot :=
          { trip with crewMembers := normalizeCrewUpnCasing trip.crewMembers } } st) ≤
      countTripRecords tid st + (if trip.tripId == tid then 1 else 0) :=
    count_addOrUpdate_le tid _ st
  split at hle
  · rename_i hcond
    have htid : trip.tripId = tid := beq_iff_eq.mp hcond
    have hzero : countTripRecords tid st = 0 := by
      subst htid
      exact find?_none_count_zero hfind
    omega
  · omega

lemma count_createRun_le (tid : String) (t : Instant)
    (create : Trip → Except ErrCode String) (trips : List Trip) :
    ∀ st, countTripRecords tid (createTeamsRun t create trips st) ≤
      max (countTripRecords tid st) 1 := by
  induction trips with
  | nil => intro st; exact le_max_left _ _
  | cons trip rest ih =>
    intro st
    unfold createTeamsRun
    simp only [List.foldl_cons]
    have h1 := count_createStep_le tid t create st trip
    have h2 := ih (createStep t create st trip)
    unfold createTeamsRun at h2
    omega

lemma nodup_gid_createRun (t : Instant) (create : Trip → Except ErrCode String)
    (trips : List Trip) :
    ∀ st, (st.map fun d => d.groupId).Nodup →
      ((createTeamsRun t create trips st).map fun d => d.groupId).Nodup := by
  induction trips with
  | nil => intro st h; exact h
  | cons trip rest ih =>
    intro st h
    unfold createTeamsRun
    simp only [List.foldl_cons]
    apply ih
    unfold createStep
    split
    · exact h
    split
    · exact h
    · exact nodup_gid_addOrUpdate h

/-- One full reconciliation cycle over a pure view of the tracking store: the
candidate reads are the Mongo queries evaluated on the current store, all
remote Graph outcomes are fixed oracles. -/
def reconcilePure (activeOwnerUpn archivedOwnerId : String) (t : Instant)
    (aenv : String → ArchiveEnv) (uenv : UpdatePhaseEnv)
    (create : Trip → Except ErrCode String) (tripsDb : List Trip)
    (store : List TeamData) : List TeamData :=
  createTeamsRun t create (createCandidateTrips t tripsDb)
    (updateRun activeOwnerUpn t uenv (archiveRun archivedOwnerId t aenv store))

lemma archiveRun_pairs (archivedOwnerId : String) (t : Instant)
    (aenv : String → ArchiveEnv) (store : List TeamData)
    (hnodup : (store.map fun d => d.groupId).Nodup) :
    groupTripPairs (archiveRun archivedOwnerId t aenv store) = groupTripPairs store := by
  apply archiveFold_pairs archivedOwnerId t aenv (archiveCandidates t store) store store rfl hnodup
  intro d hd
  have hmem : d ∈ store := by
    have h1 := (List.mem_filter.mp hd).1
    exact (List.mem_filter.mp h1).1
  exact List.mem_map.mpr ⟨d, hmem, rfl⟩

lemma updateRun_pairs (activeOwnerUpn : String) (t : Instant)
    (uenv : UpdatePhaseEnv) (store : List TeamData)
    (hnodup : (store.map fun d => d.groupId).Nodup) :
    groupTripPairs (updateRun activeOwnerUpn t uenv store) = groupTripPairs store := by
  apply updateFold_pairs activeOwnerUpn uenv (updateCandidates t store) store store rfl hnodup
  intro d hd
  have hmem : d ∈ store := by
    have h1 := (List.mem_filter.mp hd).1
    exact (List.mem_filter.mp h1).1
  exact List.mem_map.mpr ⟨d, hmem, rfl⟩

lemma reconcilePure_pairs (activeOwnerUpn archivedOwnerId : String)
    (t : Instant) (aenv : String → ArchiveEnv) (uenv : UpdatePhaseEnv)
    (store : List TeamData)
    (hnodup : (store.map fun d => d.groupId).Nodup) :
    groupTripPairs (updateRun activeOwnerUpn t uenv
      (archiveRun archivedOwnerId t aenv store)) = groupTripPairs store := by
  have hp1 := archiveRun_pairs archivedOwnerId t aenv store hnodup
  have hn1 := nodup_gids_of_pairs_eq hp1 hnodup
  have hp2 := updateRun_pairs activeOwnerUpn t uenv
    (archiveRun archivedOwnerId t aenv store) hn1
  exact hp2.trans hp1

lemma reconcilePure_count_le (activeOwnerUpn archivedOwnerId : String)
    (t : Instant) (aenv : String → ArchiveEnv) (uenv : UpdatePhaseEnv)
    (create : Trip → Except ErrCode String) (tripsDb : List Trip)
    (store : List TeamData) (tid : String)
    (hnodup : (store.map fun d => d.groupId).Nodup) :
    countTripRecords tid
      (reconcilePure activeOwnerUpn archivedOwnerId t aenv uenv create tripsDb store) ≤
      max (countTripRecords tid store) 1 := by
  unfold reconcilePure
  have hpairs := reconcilePure_pairs activeOwnerUpn archivedOwnerId t aenv uenv store hnodup
  have hc := count_createRun_le tid t create (createCandidateTrips t tripsDb)
    (updateRun activeOwnerUpn t uenv (archiveRun archivedOwnerId t aenv store))
  rw [count_eq_of_pairs_eq hpairs tid] at hc
  exact hc

lemma reconcilePure_nodup (activeOwnerUpn archivedOwnerId : String)
    (t : Instant) (aenv : String → ArchiveEnv) (uenv : UpdatePhaseEnv)
    (create : Trip → Except ErrCode String) (tripsDb : List Trip)
    (store : List TeamData)
    (hnodup : (store.map fun d => d.groupId).Nodup) :
    ((reconcilePure activeOwnerUpn archivedOwnerId t aenv uenv create tripsDb
      store).map fun d => d.groupId).Nodup := by
  unfold reconcilePure
  apply nodup_gid_createRun
  exact nodup_gids_of_pairs_eq
    (reconcilePure_pairs activeOwnerUpn archivedOwnerId t aenv uenv store hnodup) hnodup

/-- C3: running the full cycle twice with unchanged trips and oracles leaves
at most one tracking record per trip (given a well-formed store: unique group
ids, at most one record per trip). -/
theorem reconcile_twice_no_duplicate_records (activeOwnerUpn archivedOwnerId : String)
    (t : Instant) (aenv : String → ArchiveEnv) (uenv : UpdatePhaseEnv)
    (create : Trip → Except ErrCode String) (tripsDb : List Trip)
    (store : List TeamData) (tid : String)
    (hnodup : (store.map fun d => d.groupId).Nodup)
    (hone : countTripRecords tid store ≤ 1) :
    countTripRecords tid
      (reconcilePure activeOwnerUpn archivedOwnerId t aenv uenv create tripsDb
        (reconcilePure activeOwnerUpn archivedOwnerId t aenv uenv create tripsDb
          store)) ≤ 1 := by
  have h1 := reconcilePure_count_le activeOwnerUpn archivedOwnerId t aenv uenv
    create tripsDb store tid hnodup
  have hn1 := reconcilePure_nodup activeOwnerUpn archivedOwnerId t aenv uenv
    create tripsDb store hnodup
  have h2 := reconcilePure_count_le activeOwnerUpn archivedOwnerId t aenv uenv
    create tripsDb
    (reconcilePure activeOwnerUpn archivedOwnerId t aenv uenv create tripsDb store)
    tid hn1
  omega

/-! ## The Directory Client compound team creation
`TeamsApi.createTeamAsync` (TeamsApi.ts lines 108-161): create a plain group,
then convert it to a team in a retry loop — up to `maxAttempts` attempts, a
fixed `retryWaitInMilliseconds` delay after a 404 or 500, a 409 treated as a
prior attempt's success (the team settings are fetched and returned), any
other status breaking out; when the loop ends with an error the group is
deleted (the deletion's own failure is caught) and the error is rethrown. -/

/-- Outcome of one conversion attempt (`createTeamFromGroupAsync`). -/
inductive ConvResult where
  | ok
  | err (status : Nat)
deriving DecidableEq, Repr

/-- One remote call of the compound creation. -/
inductive ApiCall where
  | createGroup
  | convertAttempt (n : Nat)
  | waitRetry (ms : Nat)
  | fetchTeamSettings
  | deleteGroup
deriving DecidableEq, Repr

/-- How the retry loop ended. -/
inductive LoopOutcome where
  | converted
  | conflictFetched
  | aborted (status : Nat)
  | exhausted (lastStatus : Nat)
deriving DecidableEq, Repr

/-- Constant `maxAttempts` of TeamsApi.ts (line 122). -/
def maxAttempts : Nat := 5

/-- Constant `retryWaitInMilliseconds` of TeamsApi.ts (line 123). -/
def retryWaitInMilliseconds : Nat := 10000

/-- The `while (attemptCount < maxAttempts)` loop (lines 125-147), with the
outcome of the n-th conversion attempt given by `attempt n`: success returns;
404/500 waits and retries (also after the final attempt, whose error the loop
then carries out); 409 fetches the existing team settings and returns; any
other status breaks.  Arguments: remaining attempts, attempts already made. -/
def convertLoop (attempt : Nat → ConvResult) :
    Nat → Nat → List ApiCall × LoopOutcome
  | 0, _ => ([], .exhausted 0)
  | Nat.succ r, made =>
    match attempt made with
    | .ok => ([.convertAttempt made], .converted)
    | .err s =>
      if s == 404 || s == 500 then
        match r with
        | 0 => ([.convertAttempt made, .waitRetry retryWaitInMilliseconds],
            .exhausted s)
        | Nat.succ r2 =>
          let rest := convertLoop attempt (Nat.succ r2) (made + 1)
          (.convertAttempt made :: .waitRetry retryWaitInMilliseconds :: rest.1,
           rest.2)
      else if s == 409 then
        ([.convertAttempt made, .fetchTeamSettings], .conflictFetched)
      else
        ([.convertAttempt made], .aborted s)

/-- `TeamsApi.createTeamAsync`: group creation (assumed to succeed — on its
failure nothing else happens), the conversion loop, and on a failed loop the
orphan deletion followed by the rethrow. -/
def createTeamCompound (attempt : Nat → ConvResult) :
    List ApiCall × Except ErrCode Unit :=
  match convertLoop attempt maxAttempts 0 with
  | (calls, .converted) => (.createGroup :: calls, .ok ())
  | (calls, .conflictFetched) => (.createGroup :: calls, .ok ())
  | (calls, .aborted s) => (.createGroup :: calls ++ [.deleteGroup], .error s)
  | (calls, .exhausted s) => (.createGroup :: calls ++ [.deleteGroup], .error s)

/-- Conversion attempts of the trace. -/
def isConvertAttempt : ApiCall → Bool
  | .convertAttempt _ => true
  | _ => false

/-- Number of conversion attempts a trace holds. -/
def attemptsMade (tr : List ApiCall) : Nat := (tr.filter isConvertAttempt).length

/-- Number of group deletions a trace holds. -/
def deletionsMade (tr : List ApiCall) : Nat :=
  (tr.filter fun c => c == ApiCall.deleteGroup).length

lemma convertLoop_no_delete (attempt : Nat → ConvResult) :
    ∀ fuel made, ApiCall.deleteGroup ∉ (convertLoop attempt fuel made).1 := by
  intro fuel
  induction fuel with
  | zero => intro made h; simp [convertLoop] at h
  | succ r ih =>
    intro made
    unfold convertLoop
    cases attempt made with
    | ok => simp
    | err s =>
      simp only []
      split
      · match r with
        | 0 => simp
        | Nat.succ r2 =>
          simp only [List.mem_cons]
          intro h
          rcases h with h | h | h
          · cases h
          · cases h
          · exact ih (made + 1) h
      · split
        · simp
        · simp

lemma convertLoop_attempts_le (attempt : Nat → ConvResult) :
    ∀ fuel made, attemptsMade (convertLoop attempt fuel made).1 ≤ fuel := by
  intro fuel
  induction fuel with
  | zero => intro made; simp [convertLoop, attemptsMade]
  | succ r ih =>
    intro made
    unfold convertLoop
    cases attempt made with
    | ok => simp [attemptsMade, isConvertAttempt]
    | err s =>
      simp only []
      split
      · match r with
        | 0 => simp [attemptsMade, isConvertAttempt]
        | Nat.succ r2 =>
          have := ih (made + 1)
          simp only [Nat.succ_eq_add_one] at this
          simp only [attemptsMade, List.filter_cons] at this ⊢
          simp only [isConvertAttempt]
          simp
          omega
      · split
        · simp [attemptsMade, isConvertAttempt]
        · simp [attemptsMade, isConvertAttempt]

lemma convertLoop_wait_fixed (attempt : Nat → ConvResult) :
    ∀ fuel made ms, ApiCall.waitRetry ms ∈ (convertLoop attempt fuel made).1 →
      ms = retryWaitInMilliseconds := by
  intro fuel
  induction fuel with
  | zero => intro made ms h; simp [convertLoop] at h
  | succ r ih =>
    intro made ms
    unfold convertLoop
    cases attempt made with
    | ok => intro h; simp at h
    | err s =>
      simp only []
      split
      · match r with
        | 0 =>
          intro h
          simp at h
          exact h
        | Nat.succ r2 =>
          simp only [List.mem_cons]
          intro h
          rcases h with h | h | h
          · cases h
          · cases h; rfl
          · exact ih (made + 1) ms h
      · split
        · intro h; simp at h
        · intro h; simp at h

lemma convertLoop_attempt_origin (attempt : Nat → ConvResult) :
    ∀ fuel made n, ApiCall.convertAttempt n ∈ (convertLoop attempt fuel made).1 →
      made ≤ n ∧ ∀ i, made ≤ i → i < n →
        ∃ s, attempt i = ConvResult.err s ∧ (s = 404 ∨ s = 500) := by
  intro fuel
  induction fuel with
  | zero => intro made n h; simp [convertLoop] at h
  | succ r ih =>
    intro made n
    unfold convertLoop
    cases hatt : attempt made with
    | ok =>
      intro h
      simp at h
      subst h
      exact ⟨Nat.le_refl _, fun i hi1 hi2 => (by omega : False).elim⟩
    | err s =>
      simp only []
      split
      · rename_i hretry
        have hs : s = 404 ∨ s = 500 := by
          simpa using hretry
        match r with
        | 0 =>
          intro h
          simp at h
          subst h
          exact ⟨Nat.le_refl _, fun i hi1 hi2 => (by omega : False).elim⟩
        | Nat.succ r2 =>
          simp only [List.mem_cons]
          intro h
          rcases h with h | h | h
          · have hn : n = made := by injection h
            subst hn
            exact ⟨Nat.le_refl _, fun i hi1 hi2 => (by omega : False).elim⟩
          · exact absurd h (by simp)
          · have hrec := ih (made + 1) n h
            refine ⟨by omega, ?_⟩
            intro i hi1 hi2
            by_cases hieq : i = made
            · subst hieq
              exact ⟨s, hatt, hs⟩
            · exact hrec.2 i (by omega) hi2
      · split
        · intro h
          simp at h
          subst h
          exact ⟨Nat.le_refl _, fun i hi1 hi2 => (by omega : False).elim⟩
        · intro h
          simp at h
          subst h
          exact ⟨Nat.le_refl _, fun i hi1 hi2 => (by omega : False).elim⟩

lemma convertLoop_conflict (attempt : Nat → ConvResult) :
    ∀ k fuel made, k < fuel →
      (∀ i, i < k → ∃ s, attempt (made + i) = ConvResult.err s ∧
        (s = 404 ∨ s = 500)) →
      attempt (made + k) = ConvResult.err 409 →
      (convertLoop attempt fuel made).2 = .conflictFetched ∧
        ApiCall.fetchTeamSettings ∈ (convertLoop attempt fuel made).1 := by
  intro k
  induction k with
  | zero =>
    intro fuel made hk _ h409
    cases fuel with
    | zero => exact absurd hk (by omega)
    | succ r =>
      unfold convertLoop
      rw [show made + 0 = made from rfl] at h409
      rw [h409]
      simp

  | succ k ih =>
    intro fuel made hk hpre h409
    cases fuel with
    | zero => exact absurd hk (by omega)
    | succ r =>
      unfold convertLoop
      obtain ⟨s0, hs0, hs0r⟩ := hpre 0 (Nat.succ_pos k)
      rw [show made + 0 = made from rfl] at hs0
      rw [hs0]
      simp only []
      have hcond : (s0 == 404 || s0 == 500) = true := by
        rcases hs0r with rfl | rfl <;> decide
      rw [if_pos hcond]
      cases r with
      | zero => exact absurd hk (by omega)
      | succ r2 =>
        have hrec := ih (Nat.succ r2) (made + 1) (by omega)
          (fun i hi => by
            have h := hpre (i + 1) (by omega)
            rwa [show made + (i + 1) = made + 1 + i from by omega] at h)
          (by rwa [show made + 1 + k = made + (k + 1) from by omega])
        exact ⟨hrec.1, List.mem_cons_of_mem _ (List.mem_cons_of_mem _ hrec.2)⟩

lemma convertLoop_abort (attempt : Nat → ConvResult) :
    ∀ k fuel made s, k < fuel →
      (∀ i, i < k → ∃ s0, attempt (made + i) = ConvResult.err s0 ∧
        (s0 = 404 ∨ s0 = 500)) →
      attempt (made + k) = ConvResult.err s →
      s ≠ 404 → s ≠ 500 → s ≠ 409 →
      (convertLoop attempt fuel made).2 = .aborted s ∧
        attemptsMade (convertLoop attempt fuel made).1 = k + 1 := by
  intro k
  induction k with
  | zero =>
    intro fuel made s hk _ herr h404 h500 h409
    cases fuel with
    | zero => exact absurd hk (by omega)
    | succ r =>
      unfold convertLoop
      rw [show made + 0 = made from rfl] at herr
      rw [herr]
      simp only []
      rw [if_neg (by simp [h404, h500]), if_neg (by simp [h409])]
      simp [attemptsMade, isConvertAttempt]
  | succ k ih =>
    intro fuel made s hk hpre herr h404 h500 h409
    cases fuel with
    | zero => exact absurd hk (by omega)
    | succ r =>
      unfold convertLoop
      obtain ⟨s0, hs0, hs0r⟩ := hpre 0 (Nat.succ_pos k)
      rw [show made + 0 = made from rfl] at hs0
      rw [hs0]
      simp only []
      have hcond : (s0 == 404 || s0 == 500) = true := by
        rcases hs0r with rfl | rfl <;> decide
      rw [if_pos hcond]
      cases r with
      | zero => exact absurd hk (by omega)
      | succ r2 =>
        have hrec := ih (Nat.succ r2) (made + 1) s (by omega)
          (fun i hi => by
            have h := hpre (i + 1) (by omega)
            rwa [show made + (i + 1) = made + 1 + i from by omega] at h)
          (by rwa [show made + 1 + k = made + (k + 1) from by omega])
          h404 h500 h409
        refine ⟨hrec.1, ?_⟩
        have h2 := hrec.2
        simp only [Nat.succ_eq_add_one, attemptsMade] at h2 ⊢
        simp [List.filter_cons, isConvertAttempt]
        omega

lemma convertLoop_exhaust (attempt : Nat → ConvResult) :
    ∀ fuel made, 0 < fuel →
      (∀ i, i < fuel → ∃ s0, attempt (made + i) = ConvResult.err s0 ∧
        (s0 = 404 ∨ s0 = 500)) →
      ∃ sl, attempt (made + fuel - 1) = ConvResult.err sl ∧
        (convertLoop attempt fuel made).2 = .exhausted sl := by
  intro fuel
  induction fuel with
  | zero => intro made h; exact absurd h (by omega)
  | succ r ih =>
    intro made _ hall
    obtain ⟨s0, hs0, hs0r⟩ := hall 0 (Nat.succ_pos r)
    rw [show made + 0 = made from rfl] at hs0
    unfold convertLoop
    rw [hs0]
    simp only []
    have hcond : (s0 == 404 || s0 == 500) = true := by
      rcases hs0r with rfl | rfl <;> decide
    rw [if_pos hcond]
    cases r with
    | zero =>
      exact ⟨s0, by rwa [show made + 1 - 1 = made from by omega], rfl⟩
    | succ r2 =>
      have hrec := ih (made + 1) (Nat.succ_pos r2)
        (fun i hi => by
          have h := hall (i + 1) (by omega)
          rwa [show made + (i + 1) = made + 1 + i from by omega] at h)
      obtain ⟨sl, hsl, hout⟩ := hrec
      exact ⟨sl, by rwa [show made + (r2 + 1 + 1) - 1 = made + 1 + (r2 + 1) - 1 from
        by omega], hout⟩

/-! ## Per-trip team creation of the updater
`TeamsUpdater.createTeamForTripAsync` (lines 156-217): create a plain group;
in app context add the active owner as owner and member (both calls issued
together); convert the group to a team; on any failure after the group exists,
delete the group once (the deletion's own failure is caught) and rethrow;
then wait a fixed delay and add each crew member, resolving the principal
name first, with each member's failure caught and logged. -/

/-- One remote call of `createTeamForTripAsync`. -/
inductive CreateCall where
  | createGroup
  | addOwnerToGroup (userId : String)
  | addMemberToGroup (userId : String)
  | convertToTeam
  | deleteGroup
  | waitSeconds (s : Nat)
  | getUserByUpn (upn : String)
deriving DecidableEq, Repr

/-- Constant `teamCreationDelayInSeconds` of TeamsUpdater.ts (line 37). -/
def teamCreationDelayInSeconds : Nat := 7

/-- Remote-call outcomes `createTeamForTripAsync` consumes. -/
structure CreateTripEnv where
  createGroup : Except ErrCode String
  isInAppContext : Bool
  addOwner : Except ErrCode Unit
  addActiveOwnerMember : Except ErrCode Unit
  convertToTeam : Except ErrCode String
  deleteGroup : Except ErrCode Unit
  getUserByUpn : String → Except ErrCode User
  addCrewMember : String → Except ErrCode Unit

/-- The owner/member adds of lines 170-175, issued only in app context. -/
def appContextCalls (env : CreateTripEnv) (activeTeamOwnerId : String) :
    List CreateCall :=
  if env.isInAppContext then
    [.addOwnerToGroup activeTeamOwnerId, .addMemberToGroup activeTeamOwnerId]
  else []

/-- Outcome of the app-context adds (`Promise.all` of both). -/
def appContextResult (env : CreateTripEnv) : Except ErrCode Unit :=
  if env.isInAppContext then
    match env.addOwner with
    | .error e => .error e
    | .ok _ => env.addActiveOwnerMember
  else .ok ()

/-- The member-add calls of lines 204-213: resolve each (normalized) crew
principal name, and add the resolved user; a failed resolution skips the add,
and every failure is caught per member. -/
def crewAddCalls (env : CreateTripEnv) (cs : List CrewMember) : List CreateCall :=
  (cs.map fun c =>
    CreateCall.getUserByUpn c.userPrincipalName ::
      (match env.getUserByUpn c.userPrincipalName with
       | .ok u => [CreateCall.addMemberToGroup u.id]
       | .error _ => [])).flatten

/-- `createTeamForTripAsync`: the trace of remote calls and the returned team
id (or the surfaced error).  A failure between group creation and conversion
issues exactly one `deleteGroup` call before rethrowing. -/
def createTeamForTripModel (activeTeamOwnerId : String) (env : CreateTripEnv)
    (trip : Trip) : List CreateCall × Except ErrCode String :=
  match env.createGroup with
  | .error e => ([.createGroup], .error e)
  | .ok _ =>
  match appContextResult env with
  | .error e =>
      ([.createGroup] ++ appContextCalls env activeTeamOwnerId ++ [.deleteGroup],
       .error e)
  | .ok _ =>
  match env.convertToTeam with
  | .error e =>
      ([.createGroup] ++ appContextCalls env activeTeamOwnerId ++
        [.convertToTeam, .deleteGroup], .error e)
  | .ok teamId =>
      ([.createGroup] ++ appContextCalls env activeTeamOwnerId ++
        [.convertToTeam, .waitSeconds teamCreationDelayInSeconds] ++
        crewAddCalls env (normalizeCrewUpnCasing trip.crewMembers),
       .ok teamId)

/-- Number of group deletions in a `createTeamForTripAsync` trace. -/
def tripDeletionsMade (tr : List CreateCall) : Nat :=
  (tr.filter fun c => c == CreateCall.deleteGroup).length

lemma attemptsMade_cons_createGroup (calls : List ApiCall) :
    attemptsMade (ApiCall.createGroup :: calls) = attemptsMade calls := by
  simp [attemptsMade, List.filter_cons, isConvertAttempt]

lemma attemptsMade_append_delete (calls : List ApiCall) :
    attemptsMade (calls ++ [ApiCall.deleteGroup]) = attemptsMade calls := by
  simp [attemptsMade, List.filter_append, isConvertAttempt]

lemma deletionsMade_of_not_mem {l : List ApiCall}
    (h : ApiCall.deleteGroup ∉ l) : deletionsMade l = 0 := by
  unfold deletionsMade
  rw [List.length_eq_zero, List.filter_eq_nil_iff]
  intro a ha hcontra
  exact h (by rwa [show a = ApiCall.deleteGroup from by simpa using hcontra] at ha)

/-- C5: the compound creation makes at most 5 conversion attempts; every
retry delay is exactly 10000 ms; attempt k+1 happens only if attempt k failed
with 404 or 500; a 409 after retryable failures ends the operation
successfully with a fetch of the existing team settings and no group
deletion; any other error status ends the loop at once with that error. -/
theorem compound_create_retry_policy :
    (∀ attempt, attemptsMade (createTeamCompound attempt).1 ≤ maxAttempts) ∧
    (∀ attempt ms, ApiCall.waitRetry ms ∈ (createTeamCompound attempt).1 →
      ms = retryWaitInMilliseconds) ∧
    (∀ attempt n, ApiCall.convertAttempt (n + 1) ∈ (createTeamCompound attempt).1 →
      ∃ s, attempt n = ConvResult.err s ∧ (s = 404 ∨ s = 500)) ∧
    (∀ (attempt : Nat → ConvResult) (k : Nat), k < maxAttempts →
      (∀ i, i < k → ∃ s, attempt i = ConvResult.err s ∧ (s = 404 ∨ s = 500)) →
      attempt k = ConvResult.err 409 →
      (createTeamCompound attempt).2 = .ok () ∧
        ApiCall.fetchTeamSettings ∈ (createTeamCompound attempt).1 ∧
        ApiCall.deleteGroup ∉ (createTeamCompound attempt).1) ∧
    (∀ (attempt : Nat → ConvResult) (k s : Nat), k < maxAttempts →
      (∀ i, i < k → ∃ s0, attempt i = ConvResult.err s0 ∧ (s0 = 404 ∨ s0 = 500)) →
      attempt k = ConvResult.err s → s ≠ 404 → s ≠ 500 → s ≠ 409 →
      (createTeamCompound attempt).2 = .error s ∧
        attemptsMade (createTeamCompound attempt).1 = k + 1) := by
  refine ⟨?_, ?_, ?_, ?_, ?_⟩
  · intro attempt
    have hle := convertLoop_attempts_le attempt maxAttempts 0
    unfold createTeamCompound
    split
    · rename_i calls heq
      rw [heq] at hle
      rw [attemptsMade_cons_createGroup]
      exact hle
    · rename_i calls heq
      rw [heq] at hle
      rw [attemptsMade_cons_createGroup]
      exact hle
    · rename_i calls s2 heq
      rw [heq] at hle
      rw [show ApiCall.createGroup :: calls ++ [ApiCall.deleteGroup] =
          ApiCall.createGroup :: (calls ++ [ApiCall.deleteGroup]) from rfl,
        attemptsMade_cons_createGroup, attemptsMade_append_delete]
      exact hle
    · rename_i calls s2 heq
      rw [heq] at hle
      rw [show ApiCall.createGroup :: calls ++ [ApiCall.deleteGroup] =
          ApiCall.createGroup :: (calls ++ [ApiCall.deleteGroup]) from rfl,
        attemptsMade_cons_createGroup, attemptsMade_append_delete]
      exact hle
  · intro attempt ms
    have hw := convertLoop_wait_fixed attempt maxAttempts 0 ms
    unfold createTeamCompound
    split
    · rename_i calls heq
      rw [heq] at hw
      intro hmem
      rcases List.mem_cons.mp hmem with h | h
      · cases h
      · exact hw h
    · rename_i calls heq
      rw [heq] at hw
      intro hmem
      rcases List.mem_cons.mp hmem with h | h
      · cases h
      · exact hw h
    · rename_i calls s2 heq
      rw [heq] at hw
      intro hmem
      rcases List.mem_cons.mp hmem with h | h
      · cases h
      · rcases List.mem_append.mp h with h2 | h2
        · exact hw h2
        · exact absurd (List.mem_singleton.mp h2) (by simp)
    · rename_i calls s2 heq
      rw [heq] at hw
      intro hmem
      rcases List.mem_cons.mp hmem with h | h
      · cases h
      · rcases List.mem_append.mp h with h2 | h2
        · exact hw h2
        · exact absurd (List.mem_singleton.mp h2) (by simp)
  · intro attempt n
    have ho := convertLoop_attempt_origin attempt maxAttempts 0 (n + 1)
    unfold createTeamCompound
    split
    · rename_i calls heq
      rw [heq] at ho
      intro hmem
      rcases List.mem_cons.mp hmem with h | h
      · cases h
      · exact (ho h).2 n (Nat.zero_le n) (Nat.lt_succ_self n)
    · rename_i calls heq
      rw [heq] at ho
      intro hmem
      rcases List.mem_cons.mp hmem with h | h
      · cases h
      · exact (ho h).2 n (Nat.zero_le n) (Nat.lt_succ_self n)
    · rename_i calls s2 heq
      rw [heq] at ho
      intro hmem
      rcases List.mem_cons.mp hmem with h | h
      · cases h
      · rcases List.mem_append.mp h with h2 | h2
        · exact (ho h2).2 n (Nat.zero_le n) (Nat.lt_succ_self n)
        · exact absurd (List.mem_singleton.mp h2) (by simp)
    · rename_i calls s2 heq
      rw [heq] at ho
      intro hmem
      rcases List.mem_cons.mp hmem with h | h
      · cases h
      · rcases List.mem_append.mp h with h2 | h2
        · exact (ho h2).2 n (Nat.zero_le n) (Nat.lt_succ_self n)
        · exact absurd (List.mem_singleton.mp h2) (by simp)
  · intro attempt k hk hpre h409
    have hc := convertLoop_conflict attempt k maxAttempts 0 hk
      (fun i hi => by rw [Nat.zero_add]; exact hpre i hi)
      (by rwa [Nat.zero_add])
    have hnd := convertLoop_no_delete attempt maxAttempts 0
    unfold createTeamCompound
    split
    · rename_i calls heq
      rw [heq] at hc
      exact absurd hc.1 (by simp)
    · rename_i calls heq
      rw [heq] at hc hnd
      refine ⟨rfl, List.mem_cons_of_mem _ hc.2, ?_⟩
      intro hmem
      rcases List.mem_cons.mp hmem with h | h
      · cases h
      · exact hnd h
    · rename_i calls s2 heq
      rw [heq] at hc
      exact absurd hc.1 (by simp)
    · rename_i calls s2 heq
      rw [heq] at hc
      exact absurd hc.1 (by simp)
  · intro attempt k s hk hpre herr h404 h500 h409
    have ha := convertLoop_abort attempt k maxAttempts 0 s hk
      (fun i hi => by rw [Nat.zero_add]; exact hpre i hi)
      (by rwa [Nat.zero_add]) h404 h500 h409
    unfold createTeamCompound
    split
    · rename_i calls heq
      rw [heq] at ha
      exact absurd ha.1 (by simp)
    · rename_i calls heq
      rw [heq] at ha
      exact absurd ha.1 (by simp)
    · rename_i calls s2 heq
      rw [heq] at ha
      have hs2 : s2 = s := by
        have h1 := ha.1
        simpa using h1
      subst hs2
      refine ⟨rfl, ?_⟩
      rw [show ApiCall.createGroup :: calls ++ [ApiCall.deleteGroup] =
          ApiCall.createGroup :: (calls ++ [ApiCall.deleteGroup]) from rfl,
        attemptsMade_cons_createGroup, attemptsMade_append_delete]
      exact ha.2
    · rename_i calls s2 heq
      rw [heq] at ha
      exact absurd ha.1 (by simp)

/-- Trip of the C3 witness: departs three days after the trigger. -/
def witnessTrip : Trip :=
  { tripId := "trip-x", departureTime := 3 * msPerDay,
    flights := [{ flightNumber := "203", origin := "DXB", destination := "JFK" }],
    crewMembers := [{ userPrincipalName := "alice@contoso.com" },
                    { userPrincipalName := "bob@contoso.com" }] }

/-- Closed instance of the double-run idempotence theorem: one candidate trip,
an initially empty store, all remote calls succeeding. -/
theorem reconcile_twice_no_duplicate_records_witness :
    countTripRecords "trip-x"
      (reconcilePure "owner@contoso.com" "arch" 0 (fun _ => archiveEnvAllOk)
        updateEnvAllOk (fun _ => .ok "grp-new") [witnessTrip]
        (reconcilePure "owner@contoso.com" "arch" 0 (fun _ => archiveEnvAllOk)
          updateEnvAllOk (fun _ => .ok "grp-new") [witnessTrip] [])) ≤ 1 :=
  reconcile_twice_no_duplicate_records "owner@contoso.com" "arch" 0
    (fun _ => archiveEnvAllOk) updateEnvAllOk (fun _ => .ok "grp-new")
    [witnessTrip] [] "trip-x" (by decide) (by decide)

lemma mem_addOrUpdate_self (d : TeamData) (st : List TeamData) :
    d ∈ addOrUpdateTeamData d st := by
  induction st with
  | nil => exact List.mem_singleton.mpr rfl
  | cons x xs ih =>
    unfold addOrUpdateTeamData
    split
    · exact List.mem_cons_self d xs
    · exact List.mem_cons_of_mem x ih

lemma deletionsMade_compound_failure {calls : List ApiCall}
    (h : ApiCall.deleteGroup ∉ calls) :
    deletionsMade (ApiCall.createGroup :: calls ++ [ApiCall.deleteGroup]) = 1 := by
  have hnil : calls.filter (fun c => c == ApiCall.deleteGroup) = [] := by
    rw [List.filter_eq_nil_iff]
    intro a ha hcontra
    exact h (by rwa [show a = ApiCall.deleteGroup from by simpa using hcontra] at ha)
  simp [deletionsMade, List.filter_cons, List.filter_append, hnil]

/-- C4: when every conversion attempt fails with a retryable status, the
compound creation deletes the orphaned plain group exactly once and surfaces
the last error; when the updater's per-trip creation fails at the conversion
step, the group it created is deleted exactly once and the error is rethrown;
and a trip whose creation fails gets no tracking record — the store is left
exactly as it was. -/
theorem conversion_failure_cleanup :
    (∀ (attempt : Nat → ConvResult),
      (∀ i, i < maxAttempts → ∃ s, attempt i = ConvResult.err s ∧
        (s = 404 ∨ s = 500)) →
      ∃ sl, attempt (maxAttempts - 1) = ConvResult.err sl ∧
        (createTeamCompound attempt).2 = .error sl ∧
        deletionsMade (createTeamCompound attempt).1 = 1) ∧
    (∀ (aid : String) (env : CreateTripEnv) (trip : Trip) (gid : String)
      (e : ErrCode),
      env.createGroup = .ok gid → env.isInAppContext = false →
      env.convertToTeam = .error e →
      (createTeamForTripModel aid env trip).2 = .error e ∧
        tripDeletionsMade (createTeamForTripModel aid env trip).1 = 1) ∧
    (∀ (t : Instant) (create : Trip → Except ErrCode String) (trip : Trip)
      (store : List TeamData) (e : ErrCode),
      create trip = .error e →
      createTeamsRun t create [trip] store = store) := by
  refine ⟨?_, ?_, ?_⟩
  · intro attempt hall
    obtain ⟨sl, hsl, hout⟩ := convertLoop_exhaust attempt maxAttempts 0
      (by decide) (fun i hi => by rw [Nat.zero_add]; exact hall i hi)
    rw [Nat.zero_add] at hsl
    refine ⟨sl, hsl, ?_⟩
    have hnd := convertLoop_no_delete attempt maxAttempts 0
    unfold createTeamCompound
    split
    · rename_i calls heq
      rw [heq] at hout
      exact absurd hout (by simp)
    · rename_i calls heq
      rw [heq] at hout
      exact absurd hout (by simp)
    · rename_i calls s2 heq
      rw [heq] at hout
      exact absurd hout (by simp)
    · rename_i calls s2 heq
      rw [heq] at hout hnd
      have hs2 : s2 = sl := by simpa using hout
      subst hs2
      exact ⟨rfl, deletionsMade_compound_failure hnd⟩
  · intro aid env trip gid e hcg happ hconv
    unfold createTeamForTripModel
    rw [hcg]
    have hres : appContextResult env = .ok () := by
      simp [appContextResult, happ]
    rw [hres, hconv]
    refine ⟨rfl, ?_⟩
    simp [tripDeletionsMade, appContextCalls, happ, List.filter_cons]
  · intro t create trip store e h
    unfold createTeamsRun
    simp only [List.foldl_cons, List.foldl_nil]
    unfold createStep
    split
    · rfl
    · rw [h]

lemma crewAddCalls_all_fail {env : CreateTripEnv} {ec : ErrCode}
    (h : ∀ upn, env.getUserByUpn upn = .error ec) (cs : List CrewMember) :
    crewAddCalls env cs = cs.map fun c =>
      CreateCall.getUserByUpn c.userPrincipalName := by
  induction cs with
  | nil => rfl
  | cons c rest ih =>
    unfold crewAddCalls at ih ⊢
    simp only [List.map_cons, List.flatten_cons, h c.userPrincipalName]
    rw [ih]
    rfl

/-- C10: when group creation and conversion succeed, the per-trip creation
returns the team id no matter how many crew-member resolutions or adds fail;
the create phase then persists a record with `creationTime = triggerTime` for
the trip; and when every resolution fails, no member-add call is ever issued,
so the created team's remote membership misses the whole roster. -/
theorem create_records_despite_member_failures :
    (∀ (aid : String) (env : CreateTripEnv) (trip : Trip) (gid tid0 : String),
      env.createGroup = .ok gid → env.isInAppContext = false →
      env.convertToTeam = .ok tid0 →
      (createTeamForTripModel aid env trip).2 = .ok tid0) ∧
    (∀ (t : Instant) (aid : String) (env : CreateTripEnv) (trip : Trip)
      (gid tid0 : String) (store : List TeamData),
      env.createGroup = .ok gid → env.isInAppContext = false →
      env.convertToTeam = .ok tid0 →
      (store.find? fun d => d.tripId == trip.tripId) = none →
      ∃ d, d ∈ createTeamsRun t
          (fun tr => (createTeamForTripModel aid env tr).2) [trip] store ∧
        d.tripId = trip.tripId ∧ d.creationTime = t ∧ d.groupId = tid0) ∧
    (∀ (aid : String) (env : CreateTripEnv) (trip : Trip) (ec : ErrCode),
      env.isInAppContext = false →
      (∀ upn, env.getUserByUpn upn = .error ec) →
      ∀ uid, CreateCall.addMemberToGroup uid ∉
        (createTeamForTripModel aid env trip).1) := by
  have hbody : ∀ (aid : String) (env : CreateTripEnv) (trip : Trip)
      (gid tid0 : String),
      env.createGroup = .ok gid → env.isInAppContext = false →
      env.convertToTeam = .ok tid0 →
      (createTeamForTripModel aid env trip).2 = .ok tid0 := by
    intro aid env trip gid tid0 hcg happ hconv
    unfold createTeamForTripModel
    rw [hcg]
    have hres : appContextResult env = .ok () := by
      simp [appContextResult, happ]
    rw [hres, hconv]
  refine ⟨hbody, ?_, ?_⟩
  · intro t aid env trip gid tid0 store hcg happ hconv hfind
    unfold createTeamsRun
    simp only [List.foldl_cons, List.foldl_nil]
    unfold createStep
    rw [hfind]
    have hcreate : (fun tr => (createTeamForTripModel aid env tr).2) trip =
        Except.ok tid0 := hbody aid env trip gid tid0 hcg happ hconv
    rw [hcreate]
    exact ⟨_, mem_addOrUpdate_self _ store, rfl, rfl, rfl⟩
  · intro aid env trip ec happ hfail uid
    unfold createTeamForTripModel
    have hcalls : appContextCalls env aid = [] := by
      simp [appContextCalls, happ]
    split
    · intro hmem
      simp at hmem
    split
    · rename_i e heq
      exact absurd heq (by simp [appContextResult, happ])
    split
    · rw [hcalls]
      intro hmem
      simp at hmem
    · rw [hcalls, crewAddCalls_all_fail hfail]
      intro hmem
      simp only [List.nil_append, List.cons_append, List.mem_cons,
        List.mem_append, List.mem_map] at hmem
      rcases hmem with h | h | h | h
      · cases h
      · cases h
      · cases h
      · obtain ⟨c, _, hc⟩ := h
        cases hc

end AirlineTeams